import Mathlib

/-!
The configuration override compiler of edgex-snap-hooks.

A shallow embedding of `const.go` (the `ConfToEnv` routing table and the
`Services` list) and of `options/options.go` (`ProcessAppConfig`, its two
passes, the legacy migration and `ProcessAppCustomOptions`).

Conventions of the embedding:

* A Go `map` is a list of its entries in the order one `range` loop visits
  them (`GoMap`). Go picks that order at random; the theorems quantify over
  every list, hence over every order.
* The snap configuration store behind `snapctl` is an external collaborator.
  It is a parameter: an arbitrary state type `σ` with `get`, `getDocument`,
  `set` and `unset` functions that may fail (`Externals`).
* Every `snapctl` call and every `writeEnvFile` call appends an `Event` to
  the trace of the `World`, so that "performs no store operation" and
  "writes no file" are statements about the trace.
* Functions return the final `World` together with the Go `error` result
  (`Except String Unit`; `.ok ()` is a `nil` error).
* `flattenConfigJSON`, `getEnvVarFile`, `setEnvVariable` and `writeEnvFile`
  belong to the package and are defined outside these two files; they are
  modelled from the specification, each definition saying so.
* Logging calls have no effect on the result and are left out.
-/

namespace EdgexSnapHooks

/-! ## const.go -/

/-- ServiceConsul is the service key for Consul. -/
def ServiceConsul : String := "consul"
/-- ServiceRedis is the service key for Redis. -/
def ServiceRedis : String := "redis"
/-- ServiceData is the service key for EdgeX Core Data. -/
def ServiceData : String := "core-data"
/-- ServiceMetadata is the service key for EdgeX Core MetaData. -/
def ServiceMetadata : String := "core-metadata"
/-- ServiceCommand is the service key for EdgeX Core Command. -/
def ServiceCommand : String := "core-command"
/-- ServiceNotify is the service key for EdgeX Support Notifications. -/
def ServiceNotify : String := "support-notifications"
/-- ServiceSched is the service key for EdgeX Support Scheduler. -/
def ServiceSched : String := "support-scheduler"
/-- ServiceAppCfg is the service key for EdgeX App Service Configurable. -/
def ServiceAppCfg : String := "app-service-configurable"
/-- ServiceDevVirt is the service key for EdgeX Device Virtual. -/
def ServiceDevVirt : String := "device-virtual"
/-- ServiceSecStore is the service key for EdgeX Security Secret Store. -/
def ServiceSecStore : String := "security-secret-store"
/-- ServiceProxy is the service key for EdgeX API Gateway. -/
def ServiceProxy : String := "security-proxy"
/-- ServiceSysMgmt is the service key for EdgeX SMA (sys-mgmt-agent). -/
def ServiceSysMgmt : String := "sys-mgmt-agent"
/-- ServiceKuiper is the service key for the Kuiper rules engine. -/
def ServiceKuiper : String := "kuiper"

/-- ConfToEnv (const.go, lines 73-204): the mapping from snap config keys to
environment variable names, entry by entry in source order. -/
def ConfToEnv : List (String × String) := [
  ("service.health-check-interval", "SERVICE_HEALTHCHECKINTERVAL"),
  ("service.host", "SERVICE_HOST"),
  ("service.port", "SERVICE_PORT"),
  ("service.server-bind-addr", "SERVICE_SERVERBINDADDR"),
  ("service.startup-msg", "SERVICE_STARTUPMSG"),
  ("service.max-result-count", "SERVICE_MAXRESULTCOUNT"),
  ("service.max-request-size", "SERVICE_MAXREQUESTSIZE"),
  ("service.request-timeout", "SERVICE_REQUESTTIMEOUT"),
  ("clients.command.port", "CLIENTS_COMMAND_PORT"),
  ("clients.coredata.port", "CLIENTS_COREDATA_PORT"),
  ("clients.data.port", "CLIENTS_DATA_PORT"),
  ("clients.metadata.port", "CLIENTS_METADATA_PORT"),
  ("clients.notifications.port", "CLIENTS_NOTIFICATIONS_PORT"),
  ("clients.scheduler.port", "CLIENTS_SCHEDULER_PORT"),
  ("messagequeue.type", "core-data,device-virtual/MESSAGEQUEUE_TYPE"),
  ("messagequeue.protocol", "core-data,device-virtual/MESSAGEQUEUE_PROTOCOL"),
  ("messagequeue.host", "core-data,device-virtual/MESSAGEQUEUE_HOST"),
  ("messagequeue.port", "core-data,device-virtual/MESSAGEQUEUE_PORT"),
  ("messagequeue.publish-topic-prefix", "core-data,device-virtual/MESSAGEQUEUE_PUBLISHTOPICPREFIX"),
  ("messagequeue.subscribe-topic", "core-data,device-virtual/MESSAGEQUEUE_SUBSCRIBETOPIC"),
  ("messagequeue.auth-mode", "core-data,device-virtual/MESSAGEQUEUE_AUTHMODE"),
  ("messagequeue.secret-name", "core-data,device-virtual/MESSAGEQUEUE_SECRETNAME"),
  ("messagequeue.subscribe-enabled", "core-data,device-virtual/MESSAGEQUEUE_SUBSCRIBEENABLED"),
  ("secretstore.additional-retry-attempts", "SECRETSTORE_ADDITIONALRETRYATTEMPTS"),
  ("secretstore.retry-wait-period", "SECRETSTORE_RETRYWAITPERIOD"),
  ("smtp.host", "support-notifications/SMTP_HOST"),
  ("smtp.username", "support-notifications/SMTP_USERNAME"),
  ("smtp.password", "support-notifications/SMTP_PASSWORD"),
  ("smtp.port", "support-notifications/SMTP_PORT"),
  ("smtp.sender", "support-notifications/SMTP_SENDER"),
  ("smtp.enable-self-signed-cert", "support-notifications/SMTP_ENABLE_SELF_SIGNED_CERT"),
  ("smtp.subject", "support-notifications/SMTP_SUBJECT"),
  ("smtp.secret-path", "support-notifications/SMTP_SECRETPATH"),
  ("smtp.auth-mode", "support-notifications/SMTP_AUTHMODE"),
  ("add-proxy-route", "security-proxy/ADD_PROXY_ROUTE"),
  ("kongauth.name", "security-proxy/KONGAUTH_NAME"),
  ("add-secretstore-tokens", "security-secret-store/ADD_SECRETSTORE_TOKENS")]

/-- Services (const.go, lines 207-229): all of the edgexfoundry snap services. -/
def Services : List String := [
  ServiceConsul,
  ServiceRedis,
  ServiceData,
  ServiceMetadata,
  ServiceCommand,
  ServiceNotify,
  ServiceSched,
  ServiceAppCfg,
  ServiceDevVirt,
  ServiceSecStore,
  ServiceProxy,
  ServiceSysMgmt,
  ServiceKuiper]

/-! ## Reading a `ConfToEnv` value -/

/-- The pieces of a character list between occurrences of `sep`
(the behaviour of Go's `strings.Split` for a one-character separator). -/
def splitOnChar (sep : Char) : List Char → List (List Char)
  | [] => [[]]
  | c :: cs =>
    if c = sep then [] :: splitOnChar sep cs
    else
      match splitOnChar sep cs with
      | [] => [[c]]
      | h :: t => (c :: h) :: t

/-- A `ConfToEnv` value read as a route target: `none` as scope for a bare
variable name (every service), `some scopes` for `<scope>/<NAME>`, the scope
being the comma-separated service list before the first `/`. -/
def routeTarget (target : String) : Option (List String) × String :=
  match splitOnChar '/' target.data with
  | [] => (none, target)
  | [_] => (none, target)
  | scope :: rest =>
    (some ((splitOnChar ',' scope).map String.mk), String.mk (List.intercalate ['/'] rest))

/-- The keys the spec lists as restricted to named services: message-bus
(`messagequeue.*`), SMTP (`smtp.*`), proxy (`add-proxy-route`, `kongauth.*`)
and secret-store bootstrap (`add-secretstore-tokens`) settings. -/
def restrictedKey (key : String) : Bool :=
  "messagequeue.".data.isPrefixOf key.data
    || "smtp.".data.isPrefixOf key.data
    || key == "add-proxy-route"
    || "kongauth.".data.isPrefixOf key.data
    || key == "add-secretstore-tokens"

/-! ## Data model of options.go -/

/-- A Go map, as the list of its entries in the order a `range` loop visits
them. A `nil` map and an empty map both have no entries; where the source
tests a map against `nil` the embedding wraps it in `Option`. -/
abbrev GoMap (α : Type) := List (String × α)

/-- An `interface{}` value produced by `json.Unmarshal`: the spec's ConfigTree
(string-keyed maps and string, bool and number leaves; arrays exist in JSON
and are rejected by the flattener). A number is carried as its canonical
string form, the only thing the pipeline uses of it. -/
inductive Value where
  | str (s : String)
  | bool (b : Bool)
  | num (canonical : String)
  | arr (items : List Value)
  | obj (fields : List (String × Value))

/-- The Go type `configOptions`, a `map[string]interface{}`. -/
abbrev configOptions := GoMap Value

/-- The Go struct `snapOptions` (options.go, lines 32-35). `Apps` is a
`map[string]map[string]configOptions`; an inner map or a `configOptions`
that is `nil` (JSON `null`) is `none`. -/
structure snapOptions where
  Apps : GoMap (Option (GoMap (Option configOptions)))
  Config : Option configOptions

/-- One observable call made by the pipeline. -/
inductive Event where
  | get (key : String)
  | getDocument (key : String)
  | set (key value : String)
  | unset (key : String)
  | writeEnvFile (service : String) (merge : Bool)
  deriving DecidableEq, Repr

/-- The content of one `<service>.env` override file: its `KEY=value`
assignments, in line order. -/
abbrev EnvFile := List (String × String)

/-- The state a run acts on: the configuration store, the override file of
each service (no file reads as no assignment) and the trace of calls. -/
structure World (σ : Type) where
  store : σ
  files : String → EnvFile
  trace : List Event

/-- What options.go calls in other packages (`snapctl`, `encoding/json`,
`env`) and the secrets handler, taken as parameters.
* `get key`: `snapctl.Get(key).Run()`.
* `getDocument key`: `snapctl.Get(key).Document().Run()`.
* `set key value`: `snapctl.Set(key, value).Run()`, giving the new store.
* `unset key`: `snapctl.Unset(key).Run()`, giving the new store.
* `unmarshal`: `json.Unmarshal` into a fresh `snapOptions`.
* `SnapName`: `env.SnapName`.
* `processSecretsConfigOptions`: the handler of the same name. -/
structure Externals (σ : Type) where
  get : String → σ → Except String String
  getDocument : String → σ → Except String String
  set : String → String → σ → Except String σ
  unset : String → σ → Except String σ
  unmarshal : String → Except String snapOptions
  SnapName : String
  processSecretsConfigOptions :
    String → Option configOptions → World σ → World σ × Except String Unit

variable {σ : Type}

/-- Append one call to the trace. -/
def World.log (w : World σ) (e : Event) : World σ :=
  { w with trace := w.trace ++ [e] }

/-- The call `snapctl.Get(key).Run()`: a read, recorded in the trace. -/
def snapctlGet (X : Externals σ) (key : String) (w : World σ) :
    World σ × Except String String :=
  (w.log (Event.get key), X.get key w.store)

/-- The call `snapctl.Get(key).Document().Run()`. -/
def snapctlGetDocument (X : Externals σ) (key : String) (w : World σ) :
    World σ × Except String String :=
  (w.log (Event.getDocument key), X.getDocument key w.store)

/-- The call `snapctl.Set(key, value).Run()`; a failed call leaves the store
as it was. -/
def snapctlSet (X : Externals σ) (key value : String) (w : World σ) :
    World σ × Except String Unit :=
  match X.set key value w.store with
  | .ok s => ({ w.log (Event.set key value) with store := s }, .ok ())
  | .error err => (w.log (Event.set key value), .error err)

/-- The call `snapctl.Unset(key).Run()`; a failed call leaves the store as it
was. -/
def snapctlUnset (X : Externals σ) (key : String) (w : World σ) :
    World σ × Except String Unit :=
  match X.unset key w.store with
  | .ok s => ({ w.log (Event.unset key) with store := s }, .ok ())
  | .error err => (w.log (Event.unset key), .error err)

/-! ## The flattener, the router and the override store

`flattenConfigJSON`, `getEnvVarFile`, `setEnvVariable` and `writeEnvFile` are
called by options.go and defined in other files of the package. -/

/-- Modelled from the spec: the upsert of the Override Store, defined outside
options.go (spec 4.3: "idempotent upsert into the ordered map; last call for a
given name wins"). An existing key keeps its position and takes the new value,
a new key goes to the end. -/
def upsert (m : List (String × String)) (key value : String) : List (String × String) :=
  match m with
  | [] => [(key, value)]
  | (k, v) :: rest => if k = key then (key, value) :: rest else (k, v) :: upsert rest key value

/-- Modelled from the spec: the Key Router lookup inside `flattenConfigJSON`,
defined outside options.go (spec 4.1, 4.4 step 4: "route every entry (fail the
whole run on first unroutable key)"). A dotted path with no entry in `ConfToEnv` is the
`UnroutableKey` error; otherwise the assignment is recorded under the routing
target of the path. -/
def routeEntry (path value : String) (flatConf : GoMap String) : Except String (GoMap String) :=
  match ConfToEnv.lookup path with
  | none => .error ("unroutable key " ++ path)
  | some target => .ok (upsert flatConf target value)

mutual
/-- Modelled from the spec: `flattenConfigJSON(path, key, value, flatConf)`,
defined outside options.go, the Flattener of spec 4.2 ("a map value appends
its key to the accumulated path and recurses into each child; a scalar leaf
value terminates recursion, rendering booleans/numbers to their canonical
string form"; "path components are joined by `.`; list/array values are not
supported and must fail"), followed by the routing of each leaf. -/
def flattenConfigJSON (path key : String) (value : Value) (flatConf : GoMap String) :
    Except String (GoMap String) :=
  match value with
  | .obj fields => flattenFields (path ++ key ++ ".") fields flatConf
  | .arr _ => .error ("unsupported array value at " ++ path ++ key)
  | .str s => routeEntry (path ++ key) s flatConf
  | .bool b => routeEntry (path ++ key) (toString b) flatConf
  | .num canonical => routeEntry (path ++ key) canonical flatConf
/-- Modelled from the spec: the recursion of `flattenConfigJSON` into each
child of a map value. -/
def flattenFields (path : String) (fields : List (String × Value)) (flatConf : GoMap String) :
    Except String (GoMap String) :=
  match fields with
  | [] => .ok flatConf
  | (k, v) :: rest =>
    match flattenConfigJSON path k v flatConf with
    | .error err => .error err
    | .ok flatConf1 => flattenFields path rest flatConf1
end

/-- Modelled from the spec: the Go type `envVarOverrides`, defined outside
options.go, the in-memory Override Store of one service (spec 3 and 4.3). -/
structure envVarOverrides where
  service : String
  vars : EnvFile

/-- Modelled from the spec: `getEnvVarFile(service)`, defined outside
options.go, obtains the override store of `service`, with no assignment yet
(spec 3: "all data is created fresh per invocation"). -/
def getEnvVarFile (service : String) : envVarOverrides :=
  { service := service, vars := [] }

/-- Modelled from the spec: `setEnvVariable(env, value)`, defined outside
options.go, applying a routed assignment when its scope matches the service of
the store ("wildcard or explicit membership", spec 4.4 step 4) as an upsert
("last call for a given name wins", spec 4.3). -/
def setEnvVariable (o : envVarOverrides) (env value : String) : envVarOverrides :=
  match routeTarget env with
  | (none, name) => { o with vars := upsert o.vars name value }
  | (some scopes, name) =>
    if o.service ∈ scopes then { o with vars := upsert o.vars name value } else o

/-- Modelled from the spec: the overlay of a merging write (spec 4.3:
"overlay the in-memory assignments on top (in-memory wins on key collision),
and write the union"). -/
def overlay (existing inMemory : EnvFile) : EnvFile :=
  inMemory.foldl (fun acc kv => upsert acc kv.1 kv.2) existing

/-- Modelled from the spec: `writeEnvFile(merge)`, defined outside options.go
(spec 4.3: "if `merge` is
true, read the existing on-disk file first, overlay the in-memory assignments
on top (in-memory wins on key collision), and write the union; if `merge` is
false, the in-memory assignments fully replace the file contents"). The
source discards whatever the call returns, so the call is a total update of
the file of the service. -/
def writeEnvFile (o : envVarOverrides) (merge : Bool) (w : World σ) : World σ :=
  { w with
    files := fun s =>
      if s = o.service then (if merge then overlay (w.files s) o.vars else o.vars)
      else w.files s
    trace := w.trace ++ [Event.writeEnvFile o.service merge] }

/-! ## options.go -/

/-- The loop of `getConfigMap` (lines 40-44) over the entries of `config`. -/
def getConfigMapLoop (config : configOptions) (result : GoMap String) :
    Except String (GoMap String) :=
  match config with
  | [] => .ok result
  | (env, value) :: rest =>
    match flattenConfigJSON "" env value result with
    | .error err => .error err
    | .ok result1 => getConfigMapLoop rest result1

/-- The function `getConfigMap` (lines 37-46). The map it returns is visited
by the later `range` loops in the order its keys were first inserted. -/
def getConfigMap (config : configOptions) : Except String (GoMap String) :=
  getConfigMapLoop config []

/-- The loop `for env, value := range configuration` with its
`overrides.setEnvVariable(env, value)` body (lines 74-76 and 192-196). -/
def setEnvVariables (overrides : envVarOverrides) (configuration : GoMap String) :
    envVarOverrides :=
  configuration.foldl (fun o kv => setEnvVariable o kv.1 kv.2) overrides

/-- The body of the loop over `services` in `processGlobalConfigOptions`
(lines 73-77). -/
def writeGlobal (configuration : GoMap String) (w : World σ) (service : String) : World σ :=
  writeEnvFile (setEnvVariables (getEnvVarFile service) configuration) false w

/-- The function `processGlobalConfigOptions` (lines 50-80). With
`options.Config == nil` the source only logs and goes on, and `getConfigMap`
ranges over a nil map. -/
def processGlobalConfigOptions (X : Externals σ) (services : List String) (w : World σ) :
    World σ × Except String Unit :=
  match snapctlGetDocument X "config" w with
  | (w1, .error err) => (w1, .error err)
  | (w1, .ok jsonString) =>
    match X.unmarshal jsonString with
    | .error err => (w1, .error err)
    | .ok options =>
      match getConfigMap (options.Config.getD []) with
      | .error err => (w1, .error err)
      | .ok configuration => (services.foldl (writeGlobal configuration) w1, .ok ())

/-- The table `namespaceMap` of `migrateLegacyInternalOptions` (lines 84-88). -/
def namespaceMap : List (String × String) := [
  ("env.security-secret-store.add-secretstore-tokens",
    "apps.security-secretstore-setup.config.add-secretstore-tokens"),
  ("env.security-secret-store.add-known-secrets",
    "apps.security-secretstore-setup.config.add-known-secrets"),
  ("env.security-bootstrapper.add-registry-acl-roles",
    "apps.security-bootstrapper.config.add-registry-acl-roles")]

/-- The function `migrateLegacyInternalOptions` (lines 82-108); `order` lists
the entries of `namespaceMap` in the order the `range` loop visits them. -/
def migrateLegacyInternalOptions (X : Externals σ) (order : List (String × String))
    (w : World σ) : World σ × Except String Unit :=
  match order with
  | [] => (w, .ok ())
  | (k, v) :: rest =>
    match snapctlGet X k w with
    | (w1, .error err) => (w1, .error err)
    | (w1, .ok setting) =>
      if setting ≠ "" then
        match snapctlUnset X k w1 with
        | (w2, .error err) => (w2, .error err)
        | (w2, .ok ()) =>
          match snapctlSet X v setting w2 with
          | (w3, .error err) => (w3, .error err)
          | (w3, .ok ()) => migrateLegacyInternalOptions X rest w3
      else migrateLegacyInternalOptions X rest w1

/-- The message of the error returned at line 116, the spec's
`UnknownCustomOption`. -/
def UnknownCustomOption (key service : String) : String :=
  "Unknown custom option " ++ key ++ " for service " ++ service

/-- The function `processAppCustomOptions` (lines 111-118). -/
def processAppCustomOptions (X : Externals σ) (service key : String)
    (value : Option configOptions) (w : World σ) : World σ × Except String Unit :=
  if service = "secrets-config" then X.processSecretsConfigOptions key value w
  else (w, .error (UnknownCustomOption key service))

/-- The loop `for k, v := range appOptions` of `ProcessAppCustomOptions`
(lines 139-145). -/
def customOptionsLoop (X : Externals σ) (service : String)
    (appOptions : GoMap (Option configOptions)) (w : World σ) : World σ × Except String Unit :=
  match appOptions with
  | [] => (w, .ok ())
  | (k, v) :: rest =>
    if k ≠ "config" then
      match processAppCustomOptions X service k v w with
      | (w1, .error err) => (w1, .error err)
      | (w1, .ok ()) => customOptionsLoop X service rest w1
    else customOptionsLoop X service rest w

/-- The function `ProcessAppCustomOptions` (lines 121-149). -/
def ProcessAppCustomOptions (X : Externals σ) (service : String) (w : World σ) :
    World σ × Except String Unit :=
  match snapctlGetDocument X "apps" w with
  | (w1, .error err) => (w1, .error err)
  | (w1, .ok jsonString) =>
    match X.unmarshal jsonString with
    | .error err => (w1, .error err)
    | .ok options =>
      match options.Apps.lookup service with
      | some (some appOptions) => customOptionsLoop X service appOptions w1
      | _ => (w1, .ok ())

/-- The loop `for k, v := range appConfig` of `processAppConfigOptions`
(lines 178-200). -/
def appConfigLoop (service : String) (appConfig : GoMap (Option configOptions))
    (w : World σ) : World σ × Except String Unit :=
  match appConfig with
  | [] => (w, .ok ())
  | (k, v) :: rest =>
    if k = "config" then
      match v with
      | some config =>
        match getConfigMap config with
        | .error err => (w, .error err)
        | .ok configuration =>
          appConfigLoop service rest
            (writeEnvFile (setEnvVariables (getEnvVarFile service) configuration) true w)
      | none => appConfigLoop service rest w
    else appConfigLoop service rest w

/-- The loop `for _, service := range services` of `processAppConfigOptions`
(lines 170-202). -/
def appServicesLoop (apps : GoMap (Option (GoMap (Option configOptions))))
    (services : List String) (w : World σ) : World σ × Except String Unit :=
  match services with
  | [] => (w, .ok ())
  | service :: rest =>
    match apps.lookup service with
    | some (some appConfig) =>
      match appConfigLoop service appConfig w with
      | (w1, .error err) => (w1, .error err)
      | (w1, .ok ()) => appServicesLoop apps rest w1
    | _ => appServicesLoop apps rest w

/-- The function `processAppConfigOptions` (lines 153-204). -/
def processAppConfigOptions (X : Externals σ) (services : List String) (w : World σ) :
    World σ × Except String Unit :=
  match snapctlGetDocument X "apps" w with
  | (w1, .error err) => (w1, .error err)
  | (w1, .ok jsonString) =>
    match X.unmarshal jsonString with
    | .error err => (w1, .error err)
    | .ok options => appServicesLoop options.Apps services w1

/-- The closure `isSet` of `ProcessAppConfig` (lines 229-231). -/
def isSet (v : String) : Bool :=
  !(v == "" || v == "\x7b\x7d")

/-- The text appended to the error when `env.SnapName == "edgexfoundry"`
(lines 243-250). -/
def migratableNote (snapName : String) : String :=
  if snapName = "edgexfoundry" then
    "\nException: The following legacy \x27env.\x27 options are automatically converted:\n\t- env.security-secret-store.add-secretstore-tokens\n\t- env.security-secret-store.add-known-secrets\n\t- env.security-bootstrapper.add-registry-acl-roles"
  else ""

/-- The warning inside the message of the `ConfigNotEnabled` error (line 252). -/
def configNotEnabledWarning : String :=
  "WARNING: Setting config-enabled=true will unset existing \x27env.\x27 options and ignore future sets!!"

/-- The message of the error returned at lines 251-253, the spec's
`ConfigNotEnabled`. -/
def ConfigNotEnabled (snapName : String) : String :=
  "\x27config.\x27 and \x27apps.\x27 options are allowed only when config-enabled is true.\n\n"
    ++ configNotEnabledWarning ++ migratableNote snapName

/-- The message of the error returned at line 218, the spec's
`EmptyServiceList`. -/
def EmptyServiceList : String := "empty service list"

/-- The function `ProcessAppConfig` (lines 216-287); `order` is the order in
which the migration loop visits `namespaceMap`. -/
def ProcessAppConfig (X : Externals σ) (order : List (String × String))
    (services : List String) (w : World σ) : World σ × Except String Unit :=
  if services.length = 0 then (w, .error EmptyServiceList)
  else
    match snapctlGet X "config-enabled" w with
    | (w1, .error err) => (w1, .error err)
    | (w1, .ok configEnabledStr) =>
      if ¬ (configEnabledStr = "true") then
        match snapctlGet X "apps" w1 with
        | (w2, .error err) => (w2, .error err)
        | (w2, .ok appsOptions) =>
          match snapctlGet X "config" w2 with
          | (w3, .error err) => (w3, .error err)
          | (w3, .ok globalOptions) =>
            if isSet appsOptions || isSet globalOptions then
              (w3, .error (ConfigNotEnabled X.SnapName))
            else (w3, .ok ())
      else
        match migrateLegacyInternalOptions X order w1 with
        | (w2, .error err) => (w2, .error err)
        | (w2, .ok ()) =>
          match snapctlUnset X "env" w2 with
          | (w3, .error err) => (w3, .error err)
          | (w3, .ok ()) =>
            match processGlobalConfigOptions X services w3 with
            | (w4, .error err) => (w4, .error err)
            | (w4, .ok ()) => processAppConfigOptions X services w4

/-! ## Notions used in the statements -/

/-- The entry `apps[service]` of a parsed document: its keys and values, none
when the entry is absent or `nil`. -/
def appEntry (options : snapOptions) (service : String) : GoMap (Option configOptions) :=
  match options.Apps.lookup service with
  | some (some entries) => entries
  | _ => []

/-- The assignments a flattened configuration gives to `service`: what the
loop of `setEnvVariable` calls leaves in a fresh override store. -/
def assignmentsFor (service : String) (configuration : GoMap String) : EnvFile :=
  (setEnvVariables (getEnvVarFile service) configuration).vars

/-- The keys of an ordered map are pairwise different. -/
def UniqueKeys (m : List (String × String)) : Prop := (m.map Prod.fst).Nodup

/-- A parsed document with every key other than `config` removed from each
entry of `apps`. -/
def withoutCustomOptions (options : snapOptions) : snapOptions :=
  { options with
    Apps := options.Apps.map
      (fun e => (e.1, e.2.map (fun entries => entries.filter (fun kv => kv.1 = "config")))) }

/-- The same externals with `handler` registered in the place of
`processSecretsConfigOptions`. -/
def withHandler (X : Externals σ)
    (handler : String → Option configOptions → World σ → World σ × Except String Unit) :
    Externals σ :=
  { X with processSecretsConfigOptions := handler }

/-- True when `key` is `root` or lies below it (`root.` is an initial segment
of `key`). -/
def underKey (root key : String) : Bool :=
  key == root || (root.data ++ ['.']).isPrefixOf key.data

/-- Two dotted keys neither of which is, or lies below, the other. -/
def independentKeys (a b : String) : Bool :=
  !underKey a b && !underKey b a

/-- Modelled from the spec: the contract of the external configuration store
behind `snapctl` ("get/set/unset operations keyed by dotted paths", spec 6
and 9; unsetting a namespace unsets what lies below it, spec 4.4 step 3). A
key that was unset, or lies below one, reads as the empty string; a key that
was set reads as the value set; a set or unset leaves the reading of every
independent key as it was. -/
structure StoreLaws (X : Externals σ) : Prop where
  get_unset : ∀ root s s1, X.unset root s = .ok s1 →
    ∀ key, underKey root key = true → X.get key s1 = .ok ""
  get_unset_other : ∀ root s s1, X.unset root s = .ok s1 →
    ∀ key, independentKeys root key = true → X.get key s1 = X.get key s
  get_set : ∀ key value s s1, X.set key value s = .ok s1 → X.get key s1 = .ok value
  get_set_other : ∀ key value s s1, X.set key value s = .ok s1 →
    ∀ other, independentKeys key other = true → X.get other s1 = X.get other s

/-- No two keys of two entries of a migration table touch each other. -/
def independentEntries (a b : String × String) : Prop :=
  independentKeys a.1 b.1 = true ∧ independentKeys a.1 b.2 = true ∧
  independentKeys a.2 b.1 = true ∧ independentKeys a.2 b.2 = true

/-! ## A concrete store, for instantiating the theorems -/

/-- A small dotted-key store: the assignments last set, newest first. -/
abbrev DemoStore := List (String × String)

/-- The read of the demo store: the value last set, the empty string when
the key holds nothing. -/
def demoGet (key : String) (s : DemoStore) : String :=
  (s.lookup key).getD ""

/-- The unset of the demo store: `key` and everything below it is dropped. -/
def demoUnset (key : String) (s : DemoStore) : DemoStore :=
  s.filter (fun kv => !underKey key kv.1)

/-- The set of the demo store: `key` takes `value`, replacing what was at or
below `key`. -/
def demoSet (key value : String) (s : DemoStore) : DemoStore :=
  (key, value) :: demoUnset key s

/-- JSON text of a string without special characters. -/
def jsonString (s : String) : String := "\"" ++ s ++ "\""

/-- JSON text of an object, from its keys and the texts of its values. -/
def jsonObject (members : List (String × String)) : String :=
  "\x7b" ++ ", ".intercalate (members.map (fun m => jsonString m.1 ++ ": " ++ m.2)) ++ "\x7d"

/-- The document read of the demo store: the JSON text held under `key`,
wrapped under its key as `snapctl get -d` prints it. -/
def demoGetDocument (key : String) (s : DemoStore) : String :=
  jsonObject [(key, if demoGet key s = "" then "null" else demoGet key s)]

/-- The global document of the spec's end-to-end example, as text. -/
def demoConfigText : String :=
  jsonObject [("service", jsonObject [("port", jsonString "8080")])]

/-- The apps document of the spec's end-to-end example, as text. -/
def demoAppsText : String :=
  jsonObject [("core-data",
    jsonObject [("config", jsonObject [("service", jsonObject [("port", jsonString "9999")])])])]

/-- An apps document giving `core-data` a custom option next to `config`. -/
def demoAppsCustomText : String :=
  jsonObject [("core-data",
    jsonObject [("config", jsonObject [("service", jsonObject [("port", jsonString "9999")])]),
      ("custom", jsonObject [("flag", jsonString "on")])])]

/-- An apps document giving `core-data` a custom option and no `config`. -/
def demoAppsCustomOnlyText : String :=
  jsonObject [("core-data", jsonObject [("custom", jsonObject [("flag", jsonString "on")])])]

/-- An apps document whose `core-command` configuration has a key absent
from `ConfToEnv`. -/
def demoAppsUnroutableText : String :=
  jsonObject [
    ("core-data",
      jsonObject [("config", jsonObject [("service", jsonObject [("port", jsonString "9999")])])]),
    ("core-command",
      jsonObject [("config", jsonObject [("service", jsonObject [("colour", jsonString "red")])])])]

/-- A global document with an array value. -/
def demoConfigArrayText : String :=
  jsonObject [("service", jsonObject [("port", "[" ++ jsonString "8080" ++ "]")])]

/-- The parse of `demoConfigArrayText` under its key. -/
def demoConfigArrayOptions : snapOptions :=
  { Apps := [], Config := some [("service", .obj [("port", .arr [.str "8080"])])] }

/-- The parse of `demoConfigText` under its key. -/
def demoConfigOptions : snapOptions :=
  { Apps := [], Config := some [("service", .obj [("port", .str "8080")])] }

/-- The parse of `demoAppsText` under its key. -/
def demoAppsOptions : snapOptions :=
  { Apps := [("core-data", some [("config", some [("service", .obj [("port", .str "9999")])])])],
    Config := none }

/-- The parse of `demoAppsCustomText` under its key. -/
def demoAppsCustomOptions : snapOptions :=
  { Apps := [("core-data", some [
      ("config", some [("service", .obj [("port", .str "9999")])]),
      ("custom", some [("flag", .str "on")])])],
    Config := none }

/-- The parse of `demoAppsCustomOnlyText` under its key. -/
def demoAppsCustomOnlyOptions : snapOptions :=
  { Apps := [("core-data", some [("custom", some [("flag", .str "on")])])],
    Config := none }

/-- The parse of `demoAppsUnroutableText` under its key. -/
def demoAppsUnroutableOptions : snapOptions :=
  { Apps := [
      ("core-data", some [("config", some [("service", .obj [("port", .str "9999")])])]),
      ("core-command", some [("config", some [("service", .obj [("colour", .str "red")])])])],
    Config := none }

/-- The parse of the documents the demo store is used with; a key holding
nothing gives an empty document, any other text is a syntax error. -/
def demoUnmarshal (text : String) : Except String snapOptions :=
  if text = jsonObject [("config", demoConfigText)] then .ok demoConfigOptions
  else if text = jsonObject [("config", demoConfigArrayText)] then .ok demoConfigArrayOptions
  else if text = jsonObject [("apps", demoAppsText)] then .ok demoAppsOptions
  else if text = jsonObject [("apps", demoAppsCustomText)] then .ok demoAppsCustomOptions
  else if text = jsonObject [("apps", demoAppsCustomOnlyText)] then
    .ok demoAppsCustomOnlyOptions
  else if text = jsonObject [("apps", demoAppsUnroutableText)] then
    .ok demoAppsUnroutableOptions
  else if text = jsonObject [("config", "null")] ∨ text = jsonObject [("apps", "null")] then
    .ok { Apps := [], Config := none }
  else .error "invalid character"

/-- The externals over the demo store; every store call succeeds. -/
def demoExternals : Externals DemoStore where
  get key s := .ok (demoGet key s)
  getDocument key s := .ok (demoGetDocument key s)
  set key value s := .ok (demoSet key value s)
  unset key s := .ok (demoUnset key s)
  unmarshal := demoUnmarshal
  SnapName := "edgexfoundry"
  processSecretsConfigOptions _ _ w := (w, .ok ())

/-- The store of the spec's migration example, config enabled. -/
def demoLegacyStore : DemoStore :=
  [("config-enabled", "true"),
    ("env.security-secret-store.add-secretstore-tokens", "tok-a,tok-b")]

/-- The store of the spec's end-to-end example, config enabled. -/
def demoExampleStore : DemoStore :=
  [("config-enabled", "true"), ("config", demoConfigText), ("apps", demoAppsText)]

/-- A world over the demo store with no override file and an empty trace. -/
def demoWorld (s : DemoStore) : World DemoStore :=
  { store := s, files := fun _ => [], trace := [] }

/-- A world over a demo store without a `config` key, in which every
override file still holds an assignment of an earlier run. -/
def demoStaleWorld : World DemoStore :=
  { store := [("config-enabled", "true")],
    files := fun _ => [("SERVICE_PORT", "1234")],
    trace := [] }

/-! ## Theorems -/

/-- C1: `ProcessAppConfig` called with an empty service list returns the
error "empty service list" and leaves the world exactly as it was: the trace
gains no get, set, unset or file write, whatever the store. -/
theorem ProcessAppConfig_empty_service_list (X : Externals σ)
    (order : List (String × String)) (w : World σ) :
    ProcessAppConfig X order [] w = (w, .error "empty service list") := by
  simp [ProcessAppConfig, EmptyServiceList]

/-- C2: for a non-empty service list, when `config-enabled` reads as a string
other than "true" and `apps` and `config` both read as "" or "{}",
`ProcessAppConfig` returns success; the store and the files are unchanged and
the calls made are the three reads and nothing else. -/
theorem ProcessAppConfig_gate_short_circuit (X : Externals σ)
    (order : List (String × String)) (services : List String) (w : World σ)
    (enabled apps config : String)
    (hservices : services ≠ [])
    (henabled : X.get "config-enabled" w.store = .ok enabled) (hoff : enabled ≠ "true")
    (happs : X.get "apps" w.store = .ok apps) (happsEmpty : apps = "" ∨ apps = "\x7b\x7d")
    (hconfig : X.get "config" w.store = .ok config)
    (hconfigEmpty : config = "" ∨ config = "\x7b\x7d") :
    ProcessAppConfig X order services w =
      ({ w with trace := w.trace ++
          [Event.get "config-enabled", Event.get "apps", Event.get "config"] }, .ok ()) := by
  have h1 : isSet apps = false := by rcases happsEmpty with h | h <;> subst h <;> decide
  have h2 : isSet config = false := by rcases hconfigEmpty with h | h <;> subst h <;> decide
  simp [ProcessAppConfig, snapctlGet, World.log, henabled, hoff, happs, hconfig, h1, h2,
    hservices]

/-- Witness of C2 on the demo store holding nothing. -/
theorem ProcessAppConfig_gate_short_circuit_witness :
    ProcessAppConfig demoExternals namespaceMap ["core-data"] (demoWorld []) =
      ({ demoWorld [] with trace := (demoWorld []).trace ++
          [Event.get "config-enabled", Event.get "apps", Event.get "config"] }, .ok ()) :=
  ProcessAppConfig_gate_short_circuit demoExternals namespaceMap ["core-data"] (demoWorld [])
    "" "" "" (by decide) rfl (by decide) rfl (Or.inl rfl) rfl (Or.inl rfl)

/-- C3: for a non-empty service list, when `config-enabled` reads as a string
other than "true" and the `apps` value or the `config` value is set (neither
"" nor "{}"), `ProcessAppConfig` returns the ConfigNotEnabled error, whose
message contains the warning that setting config-enabled=true will unset
existing 'env.' options; the store and the files are unchanged and the calls
made are the three reads and nothing else. -/
theorem ProcessAppConfig_gate_rejection (X : Externals σ)
    (order : List (String × String)) (services : List String) (w : World σ)
    (enabled apps config : String)
    (hservices : services ≠ [])
    (henabled : X.get "config-enabled" w.store = .ok enabled) (hoff : enabled ≠ "true")
    (happs : X.get "apps" w.store = .ok apps)
    (hconfig : X.get "config" w.store = .ok config)
    (hset : (apps ≠ "" ∧ apps ≠ "\x7b\x7d") ∨ (config ≠ "" ∧ config ≠ "\x7b\x7d")) :
    ProcessAppConfig X order services w =
      ({ w with trace := w.trace ++
          [Event.get "config-enabled", Event.get "apps", Event.get "config"] },
        .error (ConfigNotEnabled X.SnapName))
    ∧ ∃ before after, ConfigNotEnabled X.SnapName =
        before ++ "Setting config-enabled=true will unset existing \x27env.\x27 options" ++ after := by
  have h1 : (isSet apps || isSet config) = true := by
    rcases hset with ⟨h, h'⟩ | ⟨h, h'⟩ <;> simp [isSet, h, h']
  constructor
  · simp [ProcessAppConfig, snapctlGet, World.log, henabled, hoff, happs, hconfig, h1,
      hservices]
  · refine ⟨"\x27config.\x27 and \x27apps.\x27 options are allowed only when config-enabled is true.\n\nWARNING: ",
      " and ignore future sets!!" ++ migratableNote X.SnapName, ?_⟩
    simp only [ConfigNotEnabled, configNotEnabledWarning, ← String.append_assoc]
    rfl

/-- Witness of C3 on the demo store holding an `apps.core-data` setting. -/
theorem ProcessAppConfig_gate_rejection_witness :
    ProcessAppConfig demoExternals namespaceMap ["core-data"]
        (demoWorld [("apps", demoAppsText)]) =
      ({ demoWorld [("apps", demoAppsText)] with
          trace := (demoWorld [("apps", demoAppsText)]).trace ++
            [Event.get "config-enabled", Event.get "apps", Event.get "config"] },
        .error (ConfigNotEnabled demoExternals.SnapName))
    ∧ ∃ before after, ConfigNotEnabled demoExternals.SnapName =
        before ++ "Setting config-enabled=true will unset existing \x27env.\x27 options" ++ after :=
  ProcessAppConfig_gate_rejection demoExternals namespaceMap ["core-data"]
    (demoWorld [("apps", demoAppsText)]) "" demoAppsText "" (by decide) rfl (by decide) rfl rfl
    (Or.inl ⟨by decide, by decide⟩)

/-! ### The routing table -/

set_option maxRecDepth 100000 in
/-- The per-entry check of `ConfToEnv`, in the decidable form that
`routeTarget` computes. -/
theorem ConfToEnv_check : ∀ kv ∈ ConfToEnv,
    (((routeTarget kv.2).1 = none ∧ '/' ∉ kv.2.data ∧ kv.2 ≠ "") ∨
      ((routeTarget kv.2).1.isSome = true ∧
        kv.2 = ",".intercalate ((routeTarget kv.2).1.getD []) ++ "/" ++ (routeTarget kv.2).2 ∧
        (routeTarget kv.2).1.getD [] ≠ [] ∧
        (∀ s ∈ (routeTarget kv.2).1.getD [], s ∈ Services) ∧
        (routeTarget kv.2).2 ≠ "" ∧ '/' ∈ kv.2.data)) ∧
    ('/' ∈ kv.2.data ↔ restrictedKey kv.1 = true) := by
  decide

/-- C9: every value of `ConfToEnv` is either a bare non-empty variable name
(no `/`, read by `routeTarget` as applying to every service) or
`<scope>/<NAME>` with `<scope>` a non-empty comma-separated list of members
of `Services` and `<NAME>` non-empty; and a value is scope-restricted exactly
when its key is a `messagequeue.*`, `smtp.*`, `add-proxy-route`, `kongauth.*`
or `add-secretstore-tokens` key. -/
theorem ConfToEnv_scope_encoding : ∀ kv ∈ ConfToEnv,
    (('/' ∉ kv.2.data ∧ kv.2 ≠ "" ∧ routeTarget kv.2 = (none, kv.2)) ∨
      (∃ scopes name, kv.2 = ",".intercalate scopes ++ "/" ++ name ∧ scopes ≠ [] ∧
        (∀ s ∈ scopes, s ∈ Services) ∧ name ≠ "" ∧ '/' ∈ kv.2.data ∧
        routeTarget kv.2 = (some scopes, name))) ∧
    ('/' ∈ kv.2.data ↔ restrictedKey kv.1 = true) := by
  intro kv hkv
  obtain ⟨hform, hiff⟩ := ConfToEnv_check kv hkv
  refine ⟨?_, hiff⟩
  rcases hform with ⟨hnone, hslash, hne⟩ | ⟨hsome, heq, hsc, hmem, hname, hslash⟩
  · left
    refine ⟨hslash, hne, ?_⟩
    have : (routeTarget kv.2).2 = kv.2 := by
      unfold routeTarget at hnone ⊢
      split <;> simp_all
    exact Prod.ext hnone this
  · right
    refine ⟨(routeTarget kv.2).1.getD [], (routeTarget kv.2).2, heq, hsc, hmem, hname, hslash, ?_⟩
    cases h : (routeTarget kv.2).1 with
    | none => simp [h] at hsome
    | some sc => exact Prod.ext (by simp [h]) rfl

/-- Witness of C9 at the entry `messagequeue.type`, restricted to `core-data`
and `device-virtual`. -/
theorem ConfToEnv_scope_encoding_witness :
    ("messagequeue.type", "core-data,device-virtual/MESSAGEQUEUE_TYPE") ∈ ConfToEnv ∧
    (('/' ∉ "core-data,device-virtual/MESSAGEQUEUE_TYPE".data ∧
        "core-data,device-virtual/MESSAGEQUEUE_TYPE" ≠ "" ∧
        routeTarget "core-data,device-virtual/MESSAGEQUEUE_TYPE"
          = (none, "core-data,device-virtual/MESSAGEQUEUE_TYPE")) ∨
      (∃ scopes name,
        "core-data,device-virtual/MESSAGEQUEUE_TYPE" = ",".intercalate scopes ++ "/" ++ name ∧
        scopes ≠ [] ∧ (∀ s ∈ scopes, s ∈ Services) ∧ name ≠ "" ∧
        '/' ∈ "core-data,device-virtual/MESSAGEQUEUE_TYPE".data ∧
        routeTarget "core-data,device-virtual/MESSAGEQUEUE_TYPE" = (some scopes, name))) ∧
    ('/' ∈ "core-data,device-virtual/MESSAGEQUEUE_TYPE".data ↔
      restrictedKey "messagequeue.type" = true) :=
  ⟨by decide,
    ConfToEnv_scope_encoding ("messagequeue.type", "core-data,device-virtual/MESSAGEQUEUE_TYPE")
      (by decide)⟩

/-! ### Custom options -/

/-- For a service other than `secrets-config` the loop over the entry stops
at the first key that is not `config`, with the error naming that key. -/
theorem customOptionsLoop_eq (X : Externals σ) (service : String)
    (hservice : service ≠ "secrets-config") (entries : GoMap (Option configOptions))
    (w : World σ) :
    customOptionsLoop X service entries w =
      match entries.find? (fun kv => kv.1 ≠ "config") with
      | some kv => (w, .error (UnknownCustomOption kv.1 service))
      | none => (w, .ok ()) := by
  induction entries with
  | nil => simp [customOptionsLoop]
  | cons kv rest ih =>
    obtain ⟨k, v⟩ := kv
    by_cases hk : k = "config"
    · simp [customOptionsLoop, hk, ih]
    · simp [customOptionsLoop, hk, processAppCustomOptions, hservice, UnknownCustomOption]

/-- The result of `ProcessAppCustomOptions` once the document is read and
parsed. -/
theorem ProcessAppCustomOptions_eq (X : Externals σ) (service : String) (w : World σ)
    (jsonString : String) (options : snapOptions)
    (hservice : service ≠ "secrets-config")
    (hread : X.getDocument "apps" w.store = .ok jsonString)
    (hparse : X.unmarshal jsonString = .ok options) :
    ProcessAppCustomOptions X service w =
      match (appEntry options service).find? (fun kv => kv.1 ≠ "config") with
      | some kv => (w.log (Event.getDocument "apps"), .error (UnknownCustomOption kv.1 service))
      | none => (w.log (Event.getDocument "apps"), .ok ()) := by
  unfold ProcessAppCustomOptions appEntry
  simp only [snapctlGetDocument, hread, hparse]
  rcases h : options.Apps.lookup service with _ | _ | entries
  · simp
  · simp
  · simp only [customOptionsLoop_eq X service hservice]

/-- C8: for a service other than "secrets-config" and an `apps` document that
is read and parses, `ProcessAppCustomOptions` returns an error exactly when
the entry `apps[service]` has a key different from "config"; the error then
is "Unknown custom option <key> for service <service>" for one such key of
the entry; an entry with only a `config` key, or no entry, gives success. -/
theorem ProcessAppCustomOptions_error_iff (X : Externals σ) (service : String) (w : World σ)
    (jsonString : String) (options : snapOptions)
    (hservice : service ≠ "secrets-config")
    (hread : X.getDocument "apps" w.store = .ok jsonString)
    (hparse : X.unmarshal jsonString = .ok options) :
    ((∃ err, (ProcessAppCustomOptions X service w).2 = .error err) ↔
        ∃ kv ∈ appEntry options service, kv.1 ≠ "config") ∧
    (∀ err, (ProcessAppCustomOptions X service w).2 = .error err →
        ∃ kv ∈ appEntry options service, kv.1 ≠ "config" ∧
          err = "Unknown custom option " ++ kv.1 ++ " for service " ++ service) ∧
    ((∀ kv ∈ appEntry options service, kv.1 = "config") →
        (ProcessAppCustomOptions X service w).2 = .ok ()) := by
  rw [ProcessAppCustomOptions_eq X service w jsonString options hservice hread hparse]
  cases hfind : (appEntry options service).find? (fun kv => kv.1 ≠ "config") with
  | none =>
    have hall : ∀ kv ∈ appEntry options service, kv.1 = "config" := by
      intro kv hkv
      have := List.find?_eq_none.mp hfind kv hkv
      simpa using this
    refine ⟨⟨?_, ?_⟩, ?_, ?_⟩
    · rintro ⟨err, herr⟩
      simp at herr
    · rintro ⟨kv, hkv, hne⟩
      exact absurd (hall kv hkv) hne
    · intro err herr
      simp at herr
    · intro _
      rfl
  | some kv =>
    have hmem : kv ∈ appEntry options service := List.mem_of_find?_eq_some hfind
    have hne : kv.1 ≠ "config" := by
      have := List.find?_some hfind
      simpa using this
    refine ⟨⟨fun _ => ⟨kv, hmem, hne⟩, fun _ => ⟨_, rfl⟩⟩, ?_, ?_⟩
    · intro err herr
      refine ⟨kv, hmem, hne, ?_⟩
      simp only [UnknownCustomOption] at herr
      injection herr with herr
      exact herr.symm
    · intro hall
      exact absurd (hall kv hmem) hne

/-- Witness of C8: `core-data` with the custom key `custom`. -/
theorem ProcessAppCustomOptions_error_iff_witness :
    ((∃ err, (ProcessAppCustomOptions demoExternals "core-data"
          (demoWorld [("apps", demoAppsCustomText)])).2 = .error err) ↔
        ∃ kv ∈ appEntry demoAppsCustomOptions "core-data", kv.1 ≠ "config") ∧
    (∀ err, (ProcessAppCustomOptions demoExternals "core-data"
          (demoWorld [("apps", demoAppsCustomText)])).2 = .error err →
        ∃ kv ∈ appEntry demoAppsCustomOptions "core-data", kv.1 ≠ "config" ∧
          err = "Unknown custom option " ++ kv.1 ++ " for service " ++ "core-data") ∧
    ((∀ kv ∈ appEntry demoAppsCustomOptions "core-data", kv.1 = "config") →
        (ProcessAppCustomOptions demoExternals "core-data"
          (demoWorld [("apps", demoAppsCustomText)])).2 = .ok ()) :=
  ProcessAppCustomOptions_error_iff demoExternals "core-data"
    (demoWorld [("apps", demoAppsCustomText)])
    (demoGetDocument "apps" [("apps", demoAppsCustomText)]) demoAppsCustomOptions
    (by decide) rfl (by rfl)

/-! ### The override store and the global pass -/

@[simp]
theorem setEnvVariable_service (o : envVarOverrides) (env value : String) :
    (setEnvVariable o env value).service = o.service := by
  unfold setEnvVariable
  split
  · rfl
  · split <;> rfl

@[simp]
theorem setEnvVariables_service (configuration : GoMap String) (o : envVarOverrides) :
    (setEnvVariables o configuration).service = o.service := by
  induction configuration generalizing o with
  | nil => rfl
  | cons kv rest ih =>
    simp only [setEnvVariables, List.foldl_cons] at ih ⊢
    rw [ih, setEnvVariable_service]

@[simp]
theorem writeEnvFile_store (o : envVarOverrides) (merge : Bool) (w : World σ) :
    (writeEnvFile o merge w).store = w.store := rfl

@[simp]
theorem writeEnvFile_trace (o : envVarOverrides) (merge : Bool) (w : World σ) :
    (writeEnvFile o merge w).trace = w.trace ++ [Event.writeEnvFile o.service merge] := rfl

theorem writeEnvFile_files (o : envVarOverrides) (merge : Bool) (w : World σ) (s : String) :
    (writeEnvFile o merge w).files s =
      if s = o.service then (if merge then overlay (w.files s) o.vars else o.vars)
      else w.files s := rfl

theorem foldl_writeGlobal_store (configuration : GoMap String) (services : List String)
    (w : World σ) : (services.foldl (writeGlobal configuration) w).store = w.store := by
  induction services generalizing w with
  | nil => rfl
  | cons s rest ih => simp [List.foldl_cons, ih, writeGlobal]

theorem foldl_writeGlobal_trace (configuration : GoMap String) (services : List String)
    (w : World σ) :
    (services.foldl (writeGlobal configuration) w).trace =
      w.trace ++ services.map (fun s => Event.writeEnvFile s false) := by
  induction services generalizing w with
  | nil => simp
  | cons s rest ih => simp [List.foldl_cons, ih, writeGlobal, getEnvVarFile]

theorem foldl_writeGlobal_files (configuration : GoMap String) (services : List String)
    (w : World σ) (s : String) :
    (services.foldl (writeGlobal configuration) w).files s =
      if s ∈ services then (setEnvVariables (getEnvVarFile s) configuration).vars
      else w.files s := by
  induction services generalizing w with
  | nil => simp
  | cons t rest ih =>
    rw [List.foldl_cons, ih]
    by_cases hrest : s ∈ rest
    · simp [hrest]
    · by_cases hst : s = t
      · subst hst
        simp [hrest, writeGlobal, writeEnvFile_files, getEnvVarFile]
      · simp [hrest, hst, writeGlobal, writeEnvFile_files, getEnvVarFile]

/-- The global pass once the document is read, parsed and flattened. -/
theorem processGlobalConfigOptions_eq (X : Externals σ) (services : List String) (w : World σ)
    (jsonString : String) (options : snapOptions) (configuration : GoMap String)
    (hread : X.getDocument "config" w.store = .ok jsonString)
    (hparse : X.unmarshal jsonString = .ok options)
    (hflat : getConfigMap (options.Config.getD []) = .ok configuration) :
    processGlobalConfigOptions X services w =
      (services.foldl (writeGlobal configuration) (w.log (Event.getDocument "config")),
        .ok ()) := by
  simp [processGlobalConfigOptions, snapctlGetDocument, hread, hparse, hflat]

/-- C10: when the `config` document is read, parses and flattens, the global
pass succeeds, leaves the store alone, and after its document read performs
exactly one file write per element of the service list, in list order, each
with merge=false (so none with merge=true); the file of each listed service
becomes the assignments of the global configuration routed to it, the other
files stay; with no `config` key in the document each listed service's file
becomes empty. -/
theorem processGlobalConfigOptions_writes (X : Externals σ) (services : List String)
    (w : World σ) (jsonString : String) (options : snapOptions)
    (configuration : GoMap String)
    (hread : X.getDocument "config" w.store = .ok jsonString)
    (hparse : X.unmarshal jsonString = .ok options)
    (hflat : getConfigMap (options.Config.getD []) = .ok configuration) :
    (processGlobalConfigOptions X services w).2 = .ok () ∧
    (processGlobalConfigOptions X services w).1.store = w.store ∧
    (processGlobalConfigOptions X services w).1.trace =
      w.trace ++ Event.getDocument "config" ::
        services.map (fun s => Event.writeEnvFile s false) ∧
    (∀ s ∈ services, (processGlobalConfigOptions X services w).1.files s =
      (setEnvVariables (getEnvVarFile s) configuration).vars) ∧
    (∀ s, s ∉ services → (processGlobalConfigOptions X services w).1.files s = w.files s) ∧
    (options.Config = none →
      ∀ s ∈ services, (processGlobalConfigOptions X services w).1.files s = []) := by
  rw [processGlobalConfigOptions_eq X services w jsonString options configuration hread hparse
    hflat]
  refine ⟨rfl, ?_, ?_, ?_, ?_, ?_⟩
  · simp [foldl_writeGlobal_store, World.log]
  · simp [foldl_writeGlobal_trace, World.log]
  · intro s hs
    simp [foldl_writeGlobal_files, hs]
  · intro s hs
    simp [foldl_writeGlobal_files, hs, World.log]
  · intro hnone s hs
    rw [hnone] at hflat
    have hc : configuration = [] := by
      simpa [getConfigMap, getConfigMapLoop] using hflat
    subst hc
    simp [foldl_writeGlobal_files, hs, setEnvVariables, getEnvVarFile]

/-! ### The app-specific pass -/

/-- The loop over an entry of `apps` only acts on `config` keys. -/
theorem appConfigLoop_filter (service : String) (entries : GoMap (Option configOptions))
    (w : World σ) :
    appConfigLoop service entries w =
      appConfigLoop service (entries.filter (fun kv => kv.1 = "config")) w := by
  induction entries generalizing w with
  | nil => rfl
  | cons kv rest ih =>
    obtain ⟨k, v⟩ := kv
    by_cases hk : k = "config"
    · subst hk
      rcases v with _ | config
      · simp [appConfigLoop, ih]
      · cases hflat : getConfigMap config with
        | error err => simp [appConfigLoop, hflat]
        | ok configuration =>
          simp only [appConfigLoop, hflat, if_true, List.filter_cons, decide_True]
          exact ih _
    · simp [appConfigLoop, hk, ih]

theorem lookup_map_entry {β γ : Type} (f : β → γ) (m : List (String × β)) (k : String) :
    (m.map (fun e => (e.1, f e.2))).lookup k = (m.lookup k).map f := by
  induction m with
  | nil => rfl
  | cons e rest ih =>
    obtain ⟨a, b⟩ := e
    by_cases h : k = a
    · subst h
      simp [List.lookup]
    · have h2 : (k == a) = false := by simpa using h
      simp [List.lookup, h2, ih]

/-- The loop over the services gives the same result on a document stripped
of its custom options. -/
theorem appServicesLoop_withoutCustomOptions (options : snapOptions) (services : List String)
    (w : World σ) :
    appServicesLoop (withoutCustomOptions options).Apps services w =
      appServicesLoop options.Apps services w := by
  induction services generalizing w with
  | nil => rfl
  | cons s rest ih =>
    simp only [appServicesLoop, withoutCustomOptions, lookup_map_entry]
    simp only [withoutCustomOptions] at ih
    rcases h : options.Apps.lookup s with _ | _ | entries
    · simpa using ih w
    · simpa using ih w
    · simp only [Option.map_some', ← appConfigLoop_filter]
      rcases h2 : appConfigLoop s entries w with ⟨w1, _ | _⟩
      · rfl
      · exact ih w1

/-- C6 (counterexample): config is enabled, the `apps` document gives
`core-data` the key `custom` and nothing else, no handler is registered for
it (`ProcessAppCustomOptions` rejects it), and `ProcessAppConfig` returns
success, after the calls of a run without any app-specific setting. -/
theorem ProcessAppConfig_custom_option_succeeds :
    demoUnmarshal
      (demoGetDocument "apps" [("config-enabled", "true"), ("apps", demoAppsCustomOnlyText)])
      = .ok demoAppsCustomOnlyOptions ∧
    (∃ kv ∈ appEntry demoAppsCustomOnlyOptions "core-data", kv.1 = "custom") ∧
    (ProcessAppCustomOptions demoExternals "core-data"
      (demoWorld [("config-enabled", "true"), ("apps", demoAppsCustomOnlyText)])).2
      = .error "Unknown custom option custom for service core-data" ∧
    (ProcessAppConfig demoExternals namespaceMap ["core-data"]
      (demoWorld [("config-enabled", "true"), ("apps", demoAppsCustomOnlyText)])).2 = .ok () ∧
    (ProcessAppConfig demoExternals namespaceMap ["core-data"]
      (demoWorld [("config-enabled", "true"), ("apps", demoAppsCustomOnlyText)])).1.trace =
      [Event.get "config-enabled",
        Event.get "env.security-secret-store.add-secretstore-tokens",
        Event.get "env.security-secret-store.add-known-secrets",
        Event.get "env.security-bootstrapper.add-registry-acl-roles",
        Event.unset "env", Event.getDocument "config", Event.writeEnvFile "core-data" false,
        Event.getDocument "apps"] := by
  refine ⟨by rfl, ⟨("custom", some [("flag", .str "on")]), List.mem_cons_self _ _, rfl⟩,
    by rfl, by rfl, by rfl⟩

/-! ### A configuration that does not flatten -/

/-- The app-specific pass once the document is read and parsed. -/
theorem processAppConfigOptions_eq (X : Externals σ) (services : List String) (w : World σ)
    (jsonString : String) (options : snapOptions)
    (hread : X.getDocument "apps" w.store = .ok jsonString)
    (hparse : X.unmarshal jsonString = .ok options) :
    processAppConfigOptions X services w =
      appServicesLoop options.Apps services (w.log (Event.getDocument "apps")) := by
  simp [processAppConfigOptions, snapctlGetDocument, hread, hparse]

/-- The loop over the services, run on a list cut in two. -/
theorem appServicesLoop_append (apps : GoMap (Option (GoMap (Option configOptions))))
    (before after : List String) (w : World σ) :
    appServicesLoop apps (before ++ after) w =
      match appServicesLoop apps before w with
      | (w1, .error err) => (w1, .error err)
      | (w1, .ok ()) => appServicesLoop apps after w1 := by
  induction before generalizing w with
  | nil => simp [appServicesLoop]
  | cons s rest ih =>
    simp only [List.cons_append, appServicesLoop]
    rcases h : apps.lookup s with _ | _ | entries
    · exact ih w
    · exact ih w
    · simp only
      rcases h2 : appConfigLoop s entries w with ⟨w1, _ | _⟩
      · rfl
      · exact ih w1

/-- When the first `config` key of an entry holds a tree that does not
flatten, the loop over the entry returns the error and writes nothing. -/
theorem appConfigLoop_error (service : String) (entries : GoMap (Option configOptions))
    (w : World σ) (config : configOptions) (err : String)
    (hfind : entries.find? (fun kv => kv.1 = "config") = some ("config", some config))
    (hflat : getConfigMap config = .error err) :
    appConfigLoop service entries w = (w, .error err) := by
  induction entries with
  | nil => simp at hfind
  | cons kv rest ih =>
    obtain ⟨k, v⟩ := kv
    by_cases hk : k = "config"
    · subst hk
      simp only [List.find?_cons, decide_True, Option.some.injEq, Prod.mk.injEq,
        true_and] at hfind
      subst hfind
      simp [appConfigLoop, hflat]
    · simp only [List.find?_cons, hk, decide_False] at hfind
      simp [appConfigLoop, hk, ih hfind]

theorem appEntry_lookup (options : snapOptions) (service : String)
    (h : appEntry options service ≠ []) :
    options.Apps.lookup service = some (some (appEntry options service)) := by
  unfold appEntry at h ⊢
  rcases h2 : options.Apps.lookup service with _ | _ | entries
  · simp [h2] at h
  · simp [h2] at h
  · rfl

/-- C7 (as amended): in the global pass, a `config` tree that does not
flatten makes the pass return that error with the world as it was after the
document read: no file is written. In the app-specific pass, when the
services before `service` in the list are processed without error and the
`config` tree of `service` does not flatten, the pass returns that error and
ends in the world the pass reaches on the services before it: nothing is
written for `service` or for a later service, and the files written for the
earlier services stay written. -/
theorem config_failure_aborts_pass (X : Externals σ) :
    (∀ (services : List String) (w : World σ) (text : String) (options : snapOptions)
        (err : String),
      X.getDocument "config" w.store = .ok text → X.unmarshal text = .ok options →
      getConfigMap (options.Config.getD []) = .error err →
      processGlobalConfigOptions X services w =
        (w.log (Event.getDocument "config"), .error err)) ∧
    (∀ (before : List String) (service : String) (after : List String) (w : World σ)
        (text : String) (options : snapOptions) (config : configOptions) (err : String),
      X.getDocument "apps" w.store = .ok text → X.unmarshal text = .ok options →
      (processAppConfigOptions X before w).2 = .ok () →
      (appEntry options service).find? (fun kv => kv.1 = "config")
        = some ("config", some config) →
      getConfigMap config = .error err →
      processAppConfigOptions X (before ++ service :: after) w =
        ((processAppConfigOptions X before w).1, .error err)) := by
  constructor
  · intro services w text options err hread hparse hflat
    simp [processGlobalConfigOptions, snapctlGetDocument, hread, hparse, hflat]
  · intro before service after w text options config err hread hparse hbefore hfind hflat
    rw [processAppConfigOptions_eq X _ w text options hread hparse] at hbefore ⊢
    rw [processAppConfigOptions_eq X _ w text options hread hparse, appServicesLoop_append]
    rcases h : appServicesLoop options.Apps before (w.log (Event.getDocument "apps"))
      with ⟨w1, err1 | u⟩
    · rw [h] at hbefore
      simp at hbefore
    · have hne : appEntry options service ≠ [] := by
        intro h0
        rw [h0] at hfind
        simp at hfind
      simp only [appServicesLoop, appEntry_lookup options service hne,
        appConfigLoop_error service _ w1 config err hfind hflat]

/-- Witness of C7 (as amended): a global document with an array value, and
the apps document whose `core-command` tree has the unknown key
`service.colour`, behind `core-data`. -/
theorem config_failure_aborts_pass_witness :
    processGlobalConfigOptions demoExternals ["core-data"]
        (demoWorld [("config", demoConfigArrayText)]) =
      ((demoWorld [("config", demoConfigArrayText)]).log (Event.getDocument "config"),
        .error "unsupported array value at service.port") ∧
    processAppConfigOptions demoExternals (["core-data"] ++ "core-command" :: [])
        (demoWorld [("apps", demoAppsUnroutableText)]) =
      ((processAppConfigOptions demoExternals ["core-data"]
          (demoWorld [("apps", demoAppsUnroutableText)])).1,
        .error "unroutable key service.colour") :=
  ⟨(config_failure_aborts_pass demoExternals).1 ["core-data"]
      (demoWorld [("config", demoConfigArrayText)])
      (demoGetDocument "config" [("config", demoConfigArrayText)]) demoConfigArrayOptions
      "unsupported array value at service.port" rfl (by rfl) (by rfl),
    (config_failure_aborts_pass demoExternals).2 ["core-data"] "core-command" []
      (demoWorld [("apps", demoAppsUnroutableText)])
      (demoGetDocument "apps" [("apps", demoAppsUnroutableText)]) demoAppsUnroutableOptions
      [("service", .obj [("colour", .str "red")])]
      "unroutable key service.colour" rfl (by rfl) (by rfl) (by rfl) (by rfl)⟩

/-- C7 (counterexample): in the app-specific pass over `core-data`,
`core-command`, the tree of `core-command` does not flatten and the pass
returns that error, yet the pass has written the file of `core-data`. -/
theorem processAppConfigOptions_error_after_write :
    getConfigMap [("service", .obj [("colour", .str "red")])]
      = .error "unroutable key service.colour" ∧
    (processAppConfigOptions demoExternals ["core-data", "core-command"]
      (demoWorld [("apps", demoAppsUnroutableText)])).2
      = .error "unroutable key service.colour" ∧
    (processAppConfigOptions demoExternals ["core-data", "core-command"]
      (demoWorld [("apps", demoAppsUnroutableText)])).1.trace
      = [Event.getDocument "apps", Event.writeEnvFile "core-data" true] ∧
    (processAppConfigOptions demoExternals ["core-data", "core-command"]
      (demoWorld [("apps", demoAppsUnroutableText)])).1.files "core-data"
      = [("SERVICE_PORT", "9999")] ∧
    (demoWorld [("apps", demoAppsUnroutableText)]).files "core-data" = [] := by
  refine ⟨by rfl, by rfl, by rfl, by rfl, rfl⟩

/-! ### Ordered maps: `upsert` and `overlay` -/

theorem lookup_upsert (m : List (String × String)) (key value k : String) :
    (upsert m key value).lookup k = if k = key then some value else m.lookup k := by
  induction m with
  | nil =>
    by_cases h : k = key
    · subst h
      simp [upsert, List.lookup]
    · have h2 : (k == key) = false := by simpa using h
      simp [upsert, List.lookup, h, h2]
  | cons e rest ih =>
    obtain ⟨a, b⟩ := e
    by_cases ha : a = key
    · subst ha
      by_cases h : k = a
      · subst h
        simp [upsert, List.lookup]
      · have h2 : (k == a) = false := by simpa using h
        simp [upsert, List.lookup, h, h2]
    · by_cases hka : k = a
      · subst hka
        simp [upsert, List.lookup, ha]
      · have h2 : (k == a) = false := by simpa using hka
        simp [upsert, List.lookup, ha, h2, ih]

theorem keys_upsert (m : List (String × String)) (key value : String) :
    (upsert m key value).map Prod.fst =
      if key ∈ m.map Prod.fst then m.map Prod.fst else m.map Prod.fst ++ [key] := by
  induction m with
  | nil => simp [upsert]
  | cons e rest ih =>
    obtain ⟨a, b⟩ := e
    by_cases ha : a = key
    · subst ha
      simp [upsert]
    · have hne : ¬ key = a := fun h => ha h.symm
      simp only [upsert, ha, if_false, List.map_cons, ih, List.mem_cons, hne, false_or]
      split <;> simp

theorem UniqueKeys_upsert (m : List (String × String)) (key value : String)
    (h : UniqueKeys m) : UniqueKeys (upsert m key value) := by
  unfold UniqueKeys at h ⊢
  rw [keys_upsert]
  split
  · exact h
  · rename_i hmem
    exact List.Nodup.append h (List.nodup_singleton key) (by simpa using hmem)

theorem mem_iff_lookup (m : List (String × String)) (h : UniqueKeys m) (k v : String) :
    (k, v) ∈ m ↔ m.lookup k = some v := by
  induction m with
  | nil => simp [List.lookup]
  | cons e rest ih =>
    obtain ⟨a, b⟩ := e
    have hrest : UniqueKeys rest := (List.nodup_cons.mp h).2
    have ha : a ∉ rest.map Prod.fst := (List.nodup_cons.mp h).1
    by_cases hka : k = a
    · subst hka
      have hnot : (k, v) ∉ rest := fun hm => ha (List.mem_map_of_mem Prod.fst hm)
      simp only [List.mem_cons, Prod.mk.injEq, true_and, hnot, or_false, List.lookup, beq_self_eq_true,
        Option.some.injEq]
      exact eq_comm
    · have h2 : (k == a) = false := by simpa using hka
      simp [List.lookup, h2, hka, ih hrest]

theorem lookup_overlay_of_not_mem (inMemory existing : EnvFile) (k : String)
    (h : k ∉ inMemory.map Prod.fst) :
    (overlay existing inMemory).lookup k = existing.lookup k := by
  induction inMemory generalizing existing with
  | nil => rfl
  | cons e rest ih =>
    obtain ⟨a, b⟩ := e
    simp only [List.map_cons, List.mem_cons, not_or] at h
    simp only [overlay, List.foldl_cons] at ih ⊢
    rw [ih _ h.2, lookup_upsert, if_neg h.1]

theorem lookup_overlay_of_mem (inMemory existing : EnvFile) (k v : String)
    (hu : UniqueKeys inMemory) (h : (k, v) ∈ inMemory) :
    (overlay existing inMemory).lookup k = some v := by
  induction inMemory generalizing existing with
  | nil => simp at h
  | cons e rest ih =>
    obtain ⟨a, b⟩ := e
    have hrest : UniqueKeys rest := (List.nodup_cons.mp hu).2
    have ha : a ∉ rest.map Prod.fst := (List.nodup_cons.mp hu).1
    rcases List.mem_cons.mp h with heq | hmem
    · obtain ⟨rfl, rfl⟩ := Prod.mk.injEq _ _ _ _ ▸ heq
      have := lookup_overlay_of_not_mem rest (upsert existing k v) k ha
      simp only [overlay, List.foldl_cons] at this ⊢
      rw [this, lookup_upsert, if_pos rfl]
    · simp only [overlay, List.foldl_cons] at ih ⊢
      exact ih _ hrest hmem

theorem UniqueKeys_overlay (inMemory existing : EnvFile) (h : UniqueKeys existing) :
    UniqueKeys (overlay existing inMemory) := by
  induction inMemory generalizing existing with
  | nil => exact h
  | cons e rest ih =>
    simp only [overlay, List.foldl_cons] at ih ⊢
    exact ih _ (UniqueKeys_upsert _ _ _ h)

theorem UniqueKeys_setEnvVariable (o : envVarOverrides) (env value : String)
    (h : UniqueKeys o.vars) : UniqueKeys (setEnvVariable o env value).vars := by
  unfold setEnvVariable
  split
  · exact UniqueKeys_upsert _ _ _ h
  · split
    · exact UniqueKeys_upsert _ _ _ h
    · exact h

theorem UniqueKeys_setEnvVariables (configuration : GoMap String) (o : envVarOverrides)
    (h : UniqueKeys o.vars) : UniqueKeys (setEnvVariables o configuration).vars := by
  induction configuration generalizing o with
  | nil => exact h
  | cons kv rest ih =>
    simp only [setEnvVariables, List.foldl_cons] at ih ⊢
    exact ih _ (UniqueKeys_setEnvVariable _ _ _ h)

theorem UniqueKeys_assignmentsFor (service : String) (configuration : GoMap String) :
    UniqueKeys (assignmentsFor service configuration) :=
  UniqueKeys_setEnvVariables configuration _ (by simp [UniqueKeys, getEnvVarFile])

/-! ### Precedence of the app-specific pass -/

theorem filter_config_of_nodup {β : Type} (entries : List (String × β))
    (h : (entries.map Prod.fst).Nodup) :
    entries.filter (fun kv => kv.1 = "config") =
      match entries.lookup "config" with
      | some v => [("config", v)]
      | none => [] := by
  induction entries with
  | nil => rfl
  | cons e rest ih =>
    obtain ⟨a, b⟩ := e
    have hrest := (List.nodup_cons.mp h).2
    have ha : a ∉ rest.map Prod.fst := (List.nodup_cons.mp h).1
    by_cases hk : a = "config"
    · subst hk
      have hnone : rest.filter (fun kv => kv.1 = "config") = [] := by
        rw [List.filter_eq_nil_iff]
        intro kv hkv hc
        exact ha (List.mem_map.mpr ⟨kv, hkv, by simpa using hc⟩)
      simp [List.lookup, hnone]
    · have h2 : (("config" : String) == a) = false := by
        simpa using fun h => hk h.symm
      simp only [List.filter_cons, hk, decide_False, List.lookup, h2]
      exact ih hrest

/-- The loop over an entry whose keys are pairwise different (as in any Go
map): one merge write when the entry has a `config` tree that flattens. -/
theorem appConfigLoop_unique (service : String) (entries : GoMap (Option configOptions))
    (w : World σ) (hkeys : (entries.map Prod.fst).Nodup) :
    appConfigLoop service entries w =
      match entries.lookup "config" with
      | some (some config) =>
        (match getConfigMap config with
          | .error err => (w, .error err)
          | .ok configuration =>
            (writeEnvFile (setEnvVariables (getEnvVarFile service) configuration) true w,
              .ok ()))
      | _ => (w, .ok ()) := by
  rw [appConfigLoop_filter, filter_config_of_nodup entries hkeys]
  rcases entries.lookup "config" with _ | _ | config
  · rfl
  · simp [appConfigLoop]
  · cases h : getConfigMap config <;> simp [appConfigLoop, h]

theorem appConfigLoop_files_other (service : String) (entries : GoMap (Option configOptions))
    (w : World σ) (s : String) (hs : s ≠ service) :
    (appConfigLoop service entries w).1.files s = w.files s := by
  induction entries generalizing w with
  | nil => rfl
  | cons kv rest ih =>
    obtain ⟨k, v⟩ := kv
    by_cases hk : k = "config"
    · subst hk
      rcases v with _ | config
      · simpa [appConfigLoop] using ih w
      · cases hflat : getConfigMap config with
        | error err => simp [appConfigLoop, hflat]
        | ok configuration =>
          simp only [appConfigLoop, hflat, if_true]
          rw [ih, writeEnvFile_files]
          simp [hs, getEnvVarFile]
    · simpa [appConfigLoop, hk] using ih w

theorem appConfigLoop_store (service : String) (entries : GoMap (Option configOptions))
    (w : World σ) : (appConfigLoop service entries w).1.store = w.store := by
  induction entries generalizing w with
  | nil => rfl
  | cons kv rest ih =>
    obtain ⟨k, v⟩ := kv
    by_cases hk : k = "config"
    · subst hk
      rcases v with _ | config
      · simpa [appConfigLoop] using ih w
      · cases hflat : getConfigMap config with
        | error err => simp [appConfigLoop, hflat]
        | ok configuration =>
          simp only [appConfigLoop, hflat, if_true]
          rw [ih, writeEnvFile_store]
    · simpa [appConfigLoop, hk] using ih w

theorem appServicesLoop_store (apps : GoMap (Option (GoMap (Option configOptions))))
    (services : List String) (w : World σ) :
    (appServicesLoop apps services w).1.store = w.store := by
  induction services generalizing w with
  | nil => rfl
  | cons t rest ih =>
    simp only [appServicesLoop]
    rcases h : apps.lookup t with _ | _ | entries
    · exact ih w
    · exact ih w
    · simp only
      have hst := appConfigLoop_store t entries w
      rcases h2 : appConfigLoop t entries w with ⟨w1, _ | _⟩
      · rw [h2] at hst
        exact hst
      · rw [h2] at hst
        simp only
        rw [ih w1, hst]

/-- A property of the file of `s` that every run of the entry loop of `s`
keeps is kept by the loop over the services. -/
theorem appServicesLoop_files_inv (apps : GoMap (Option (GoMap (Option configOptions))))
    (s : String) (P : EnvFile → Prop)
    (hstep : ∀ entries, apps.lookup s = some (some entries) → ∀ w : World σ,
      P (w.files s) → P ((appConfigLoop s entries w).1.files s))
    (services : List String) (w : World σ) (h : P (w.files s)) :
    P ((appServicesLoop apps services w).1.files s) := by
  induction services generalizing w with
  | nil => exact h
  | cons t rest ih =>
    simp only [appServicesLoop]
    rcases hl : apps.lookup t with _ | _ | entries
    · exact ih w h
    · exact ih w h
    · simp only
      have hfile : P ((appConfigLoop t entries w).1.files s) := by
        by_cases hst : s = t
        · subst hst
          exact hstep entries hl w h
        · rw [appConfigLoop_files_other t entries w s hst]
          exact h
      rcases h2 : appConfigLoop t entries w with ⟨w1, _ | _⟩
      · rw [h2] at hfile
        exact hfile
      · rw [h2] at hfile
        exact ih w1 hfile

/-- A property that a successful run of the entry loop of `s` establishes
from `P` and that every later run keeps holds after a successful loop over
services among which `s` occurs. -/
theorem appServicesLoop_files_reach (apps : GoMap (Option (GoMap (Option configOptions))))
    (s : String) (P R : EnvFile → Prop) (entries : GoMap (Option configOptions))
    (hentry : apps.lookup s = some (some entries))
    (hest : ∀ w : World σ, P (w.files s) → (appConfigLoop s entries w).2 = .ok () →
      R ((appConfigLoop s entries w).1.files s))
    (hpres : ∀ w : World σ, R (w.files s) → R ((appConfigLoop s entries w).1.files s))
    (services : List String) (w : World σ) (h : P (w.files s)) (hs : s ∈ services)
    (hok : (appServicesLoop apps services w).2 = .ok ()) :
    R ((appServicesLoop apps services w).1.files s) := by
  induction services generalizing w with
  | nil => simp at hs
  | cons t rest ih =>
    simp only [appServicesLoop] at hok ⊢
    by_cases hst : s = t
    · subst hst
      simp only [hentry] at hok ⊢
      have hR := hest w h
      rcases h2 : appConfigLoop s entries w with ⟨w1, err | u⟩
      · rw [h2] at hok
        simp at hok
      · rw [h2] at hR
        simp only
        refine appServicesLoop_files_inv apps s R ?_ rest w1 (hR rfl)
        intro entries2 hl w2 hw2
        rw [hentry] at hl
        injection hl with hl
        injection hl with hl
        subst hl
        exact hpres w2 hw2
    · have hs2 : s ∈ rest := by
        rcases List.mem_cons.mp hs with h0 | h0
        · exact absurd h0 hst
        · exact h0
      rcases hl : apps.lookup t with _ | _ | entries2
      · rw [hl] at hok
        exact ih w h hs2 hok
      · rw [hl] at hok
        exact ih w h hs2 hok
      · rw [hl] at hok
        simp only at hok ⊢
        have hfile := appConfigLoop_files_other t entries2 w s hst
        rcases h2 : appConfigLoop t entries2 w with ⟨w1, err | u⟩
        · rw [h2] at hok
          simp at hok
        · rw [h2] at hok hfile
          simp only at hok hfile ⊢
          exact ih w1 (hfile ▸ h) hs2 hok

theorem appEntry_eq (options : snapOptions) (service : String)
    (entries : GoMap (Option configOptions))
    (h : options.Apps.lookup service = some (some entries)) :
    appEntry options service = entries := by
  simp [appEntry, h]

theorem processGlobalConfigOptions_store (X : Externals σ) (services : List String)
    (w : World σ) : (processGlobalConfigOptions X services w).1.store = w.store := by
  simp only [processGlobalConfigOptions, snapctlGetDocument]
  rcases X.getDocument "config" w.store with err | text
  · rfl
  · simp only
    rcases X.unmarshal text with err | options
    · rfl
    · simp only
      rcases getConfigMap (options.Config.getD []) with err | configuration
      · rfl
      · simp [foldl_writeGlobal_store, World.log]

theorem processAppConfigOptions_store (X : Externals σ) (services : List String)
    (w : World σ) : (processAppConfigOptions X services w).1.store = w.store := by
  simp only [processAppConfigOptions, snapctlGetDocument]
  rcases X.getDocument "apps" w.store with err | text
  · rfl
  · simp only
    rcases X.unmarshal text with err | options
    · rfl
    · simp [appServicesLoop_store, World.log]

/-- A successful global pass has read, parsed and flattened its document. -/
theorem processGlobalConfigOptions_ok (X : Externals σ) (services : List String) (w : World σ)
    (h : (processGlobalConfigOptions X services w).2 = .ok ()) :
    ∃ text options configuration,
      X.getDocument "config" w.store = .ok text ∧ X.unmarshal text = .ok options ∧
      getConfigMap (options.Config.getD []) = .ok configuration ∧
      (processGlobalConfigOptions X services w).1 =
        services.foldl (writeGlobal configuration) (w.log (Event.getDocument "config")) := by
  simp only [processGlobalConfigOptions, snapctlGetDocument] at h ⊢
  rcases hr : X.getDocument "config" w.store with err | text
  · simp [hr] at h
  · rw [hr] at h
    simp only at h ⊢
    rcases hp : X.unmarshal text with err | options
    · simp [hp] at h
    · rw [hp] at h
      simp only at h ⊢
      rcases hf : getConfigMap (options.Config.getD []) with err | configuration
      · simp [hf] at h
      · exact ⟨text, options, configuration, rfl, hp, hf, rfl⟩

/-- A successful app-specific pass has read and parsed its document. -/
theorem processAppConfigOptions_ok (X : Externals σ) (services : List String) (w : World σ)
    (h : (processAppConfigOptions X services w).2 = .ok ()) :
    ∃ text options,
      X.getDocument "apps" w.store = .ok text ∧ X.unmarshal text = .ok options ∧
      processAppConfigOptions X services w =
        appServicesLoop options.Apps services (w.log (Event.getDocument "apps")) := by
  simp only [processAppConfigOptions, snapctlGetDocument] at h ⊢
  rcases hr : X.getDocument "apps" w.store with err | text
  · simp [hr] at h
  · rw [hr] at h
    simp only at h ⊢
    rcases hp : X.unmarshal text with err | options
    · simp [hp] at h
    · exact ⟨text, options, rfl, hp, rfl⟩

/-- A successful run with config enabled ends with the two passes, run one
after the other from some world `w3`. -/
theorem ProcessAppConfig_ok_passes (X : Externals σ) (order : List (String × String))
    (services : List String) (w : World σ)
    (henabled : X.get "config-enabled" w.store = .ok "true")
    (hrun : (ProcessAppConfig X order services w).2 = .ok ()) :
    ∃ w3 : World σ,
      (processGlobalConfigOptions X services w3).2 = .ok () ∧
      (processAppConfigOptions X services (processGlobalConfigOptions X services w3).1).2
        = .ok () ∧
      (ProcessAppConfig X order services w).1 =
        (processAppConfigOptions X services (processGlobalConfigOptions X services w3).1).1 := by
  unfold ProcessAppConfig at hrun ⊢
  by_cases hlen : services.length = 0
  · simp [hlen] at hrun
  · simp only [hlen, if_false, snapctlGet, henabled, not_true_eq_false] at hrun ⊢
    rcases hm : migrateLegacyInternalOptions X order (w.log (Event.get "config-enabled"))
      with ⟨w2, err | u⟩
    · simp [hm] at hrun
    · rw [hm] at hrun
      simp only at hrun ⊢
      rcases hu : snapctlUnset X "env" w2 with ⟨w3, err | u⟩
      · simp [hu] at hrun
      · rw [hu] at hrun
        simp only at hrun ⊢
        refine ⟨w3, ?_⟩
        rcases hg : processGlobalConfigOptions X services w3 with ⟨w4, err | u⟩
        · simp [hg] at hrun
        · rw [hg] at hrun
          exact ⟨rfl, hrun, rfl⟩

/-- C5: in a successful `ProcessAppConfig` run with config enabled, for a
service `s` of the list and a variable `K`, with the `config` and `apps`
documents as the store holds them when the passes read them (the passes do
not change the store, so this is the store the run ends with): (1) if the
global configuration assigns `K=V1` to `s` and the `config` tree of `s` in
`apps` assigns `K=V2` with `V1 ≠ V2`, the file of `s` ends with `K=V2` and
without `K=V1`; (2) if the global configuration assigns `K=V1` to `s` and `s`
has no app-specific assignment for `K`, the file of `s` ends with `K=V1`. -/
theorem ProcessAppConfig_precedence (X : Externals σ) (order : List (String × String))
    (services : List String) (w : World σ) (gText aText : String)
    (gOptions aOptions : snapOptions) (G : GoMap String) (s K : String)
    (henabled : X.get "config-enabled" w.store = .ok "true")
    (hrun : (ProcessAppConfig X order services w).2 = .ok ())
    (hgRead : X.getDocument "config" (ProcessAppConfig X order services w).1.store = .ok gText)
    (hgParse : X.unmarshal gText = .ok gOptions)
    (hG : getConfigMap (gOptions.Config.getD []) = .ok G)
    (haRead : X.getDocument "apps" (ProcessAppConfig X order services w).1.store = .ok aText)
    (haParse : X.unmarshal aText = .ok aOptions)
    (hkeys : ((appEntry aOptions s).map Prod.fst).Nodup)
    (hs : s ∈ services) :
    (∀ config A V1 V2,
      (appEntry aOptions s).lookup "config" = some (some config) → getConfigMap config = .ok A →
      (K, V1) ∈ assignmentsFor s G → (K, V2) ∈ assignmentsFor s A → V1 ≠ V2 →
      (K, V2) ∈ (ProcessAppConfig X order services w).1.files s ∧
      (K, V1) ∉ (ProcessAppConfig X order services w).1.files s) ∧
    (∀ V1, (K, V1) ∈ assignmentsFor s G →
      (∀ config A, (appEntry aOptions s).lookup "config" = some (some config) →
        getConfigMap config = .ok A → K ∉ (assignmentsFor s A).map Prod.fst) →
      (K, V1) ∈ (ProcessAppConfig X order services w).1.files s) := by
  obtain ⟨w3, hgok, haok, hfinal⟩ := ProcessAppConfig_ok_passes X order services w henabled hrun
  have hstore : (ProcessAppConfig X order services w).1.store = w3.store := by
    rw [hfinal, processAppConfigOptions_store, processGlobalConfigOptions_store]
  rw [hstore] at hgRead haRead
  obtain ⟨gText2, gOptions2, G2, hr, hp, hf, hgw⟩ :=
    processGlobalConfigOptions_ok X services w3 hgok
  rw [hgRead] at hr
  injection hr with hr
  subst hr
  rw [hgParse] at hp
  injection hp with hp
  subst hp
  rw [hG] at hf
  injection hf with hf
  subst hf
  obtain ⟨aText2, aOptions2, hr, hp, haw⟩ := processAppConfigOptions_ok X services _ haok
  rw [processGlobalConfigOptions_store, haRead] at hr
  injection hr with hr
  subst hr
  rw [haParse] at hp
  injection hp with hp
  subst hp
  rw [hfinal, haw]
  have hfile0 : ((processGlobalConfigOptions X services w3).1.log
      (Event.getDocument "apps")).files s = assignmentsFor s G := by
    rw [hgw]
    simp [World.log, foldl_writeGlobal_files, hs, assignmentsFor]
  rw [haw] at haok
  constructor
  · intro config A V1 V2 hcfg hA hV1 hV2 hne
    have hne0 : appEntry aOptions s ≠ [] := by
      intro h0
      rw [h0] at hcfg
      simp [List.lookup] at hcfg
    have hentry := appEntry_lookup aOptions s hne0
    have hloop : ∀ w0 : World σ, appConfigLoop s (appEntry aOptions s) w0 =
        (writeEnvFile (setEnvVariables (getEnvVarFile s) A) true w0, .ok ()) := by
      intro w0
      rw [appConfigLoop_unique s _ w0 hkeys, hcfg]
      simp only [hA]
    have hwrite : ∀ w0 : World σ, UniqueKeys (w0.files s) →
        UniqueKeys ((appConfigLoop s (appEntry aOptions s) w0).1.files s) ∧
        ((appConfigLoop s (appEntry aOptions s) w0).1.files s).lookup K = some V2 := by
      intro w0 hu
      rw [hloop w0, writeEnvFile_files]
      simp only [setEnvVariables_service, getEnvVarFile, if_true]
      exact ⟨UniqueKeys_overlay _ _ hu,
        lookup_overlay_of_mem _ _ K V2 (UniqueKeys_assignmentsFor s A) hV2⟩
    have hR := appServicesLoop_files_reach aOptions.Apps s UniqueKeys
      (fun f => UniqueKeys f ∧ f.lookup K = some V2) (appEntry aOptions s) hentry
      (fun w0 hu _ => hwrite w0 hu) (fun w0 hu => hwrite w0 hu.1) services _
      (hfile0 ▸ UniqueKeys_assignmentsFor s G) hs haok
    obtain ⟨hu, hl⟩ := hR
    refine ⟨(mem_iff_lookup _ hu K V2).mpr hl, ?_⟩
    intro hmem
    have := (mem_iff_lookup _ hu K V1).mp hmem
    rw [hl] at this
    injection this with this
    exact hne this.symm
  · intro V1 hV1 hno
    have hP := appServicesLoop_files_inv aOptions.Apps s
      (fun f => UniqueKeys f ∧ f.lookup K = some V1) ?_ services
      ((processGlobalConfigOptions X services w3).1.log (Event.getDocument "apps")) ?_
    · exact (mem_iff_lookup _ hP.1 K V1).mpr hP.2
    · intro entries hl w0 hw0
      have he := appEntry_eq aOptions s entries hl
      subst he
      rw [appConfigLoop_unique s _ w0 hkeys]
      rcases hc : (appEntry aOptions s).lookup "config" with _ | _ | config
      · exact hw0
      · exact hw0
      · simp only
        rcases hA : getConfigMap config with err | A
        · exact hw0
        · simp only [writeEnvFile_files, setEnvVariables_service, getEnvVarFile, if_true]
          refine ⟨UniqueKeys_overlay _ _ hw0.1, ?_⟩
          exact (lookup_overlay_of_not_mem (assignmentsFor s A) (w0.files s) K
            (hno config A hc hA)).trans hw0.2
    · rw [hfile0]
      exact ⟨UniqueKeys_assignmentsFor s G,
        (mem_iff_lookup _ (UniqueKeys_assignmentsFor s G) K V1).mp hV1⟩

/-- Witness of C5, the spec's end-to-end example: global
`service.port = 8080`, `apps.core-data.config.service.port = 9999`, services
`core-data` and `core-command`. The file of `core-data` ends with
`SERVICE_PORT=9999` and without `SERVICE_PORT=8080`, the file of
`core-command` with `SERVICE_PORT=8080`; in the trace the writes with
merge=false come before the write with merge=true. -/
theorem ProcessAppConfig_precedence_witness :
    (("SERVICE_PORT", "9999") ∈
        (ProcessAppConfig demoExternals namespaceMap ["core-data", "core-command"]
          (demoWorld demoExampleStore)).1.files "core-data" ∧
      ("SERVICE_PORT", "8080") ∉
        (ProcessAppConfig demoExternals namespaceMap ["core-data", "core-command"]
          (demoWorld demoExampleStore)).1.files "core-data") ∧
    ("SERVICE_PORT", "8080") ∈
        (ProcessAppConfig demoExternals namespaceMap ["core-data", "core-command"]
          (demoWorld demoExampleStore)).1.files "core-command" ∧
    (ProcessAppConfig demoExternals namespaceMap ["core-data", "core-command"]
        (demoWorld demoExampleStore)).1.files "core-data" = [("SERVICE_PORT", "9999")] ∧
    (ProcessAppConfig demoExternals namespaceMap ["core-data", "core-command"]
        (demoWorld demoExampleStore)).1.files "core-command" = [("SERVICE_PORT", "8080")] ∧
    (ProcessAppConfig demoExternals namespaceMap ["core-data", "core-command"]
        (demoWorld demoExampleStore)).1.trace =
      [Event.get "config-enabled",
        Event.get "env.security-secret-store.add-secretstore-tokens",
        Event.get "env.security-secret-store.add-known-secrets",
        Event.get "env.security-bootstrapper.add-registry-acl-roles",
        Event.unset "env", Event.getDocument "config",
        Event.writeEnvFile "core-data" false, Event.writeEnvFile "core-command" false,
        Event.getDocument "apps", Event.writeEnvFile "core-data" true] :=
  ⟨(ProcessAppConfig_precedence demoExternals namespaceMap ["core-data", "core-command"]
      (demoWorld demoExampleStore) (demoGetDocument "config" demoExampleStore)
      (demoGetDocument "apps" demoExampleStore) demoConfigOptions demoAppsOptions
      [("SERVICE_PORT", "8080")] "core-data" "SERVICE_PORT"
      rfl (by rfl) (by rfl) (by rfl) (by rfl) (by rfl) (by rfl)
      (List.nodup_singleton _) (List.mem_cons_self _ _)).1
      [("service", .obj [("port", .str "9999")])] [("SERVICE_PORT", "9999")] "8080" "9999"
      (by rfl) (by rfl) (List.mem_cons_self _ _) (List.mem_cons_self _ _) (by decide),
    (ProcessAppConfig_precedence demoExternals namespaceMap ["core-data", "core-command"]
      (demoWorld demoExampleStore) (demoGetDocument "config" demoExampleStore)
      (demoGetDocument "apps" demoExampleStore) demoConfigOptions demoAppsOptions
      [("SERVICE_PORT", "8080")] "core-command" "SERVICE_PORT"
      rfl (by rfl) (by rfl) (by rfl) (by rfl) (by rfl) (by rfl)
      List.nodup_nil (List.mem_cons_of_mem _ (List.mem_cons_self _ _))).2
      "8080" (List.mem_cons_self _ _)
      (fun config _ h _ =>
        Option.noConfusion (h : (none : Option (Option configOptions)) = some (some config))),
    by rfl, by rfl, by rfl⟩

/-- Witness of C10: on the end-to-end example, two writes with merge=false
in list order; on a store without a `config` key, the stale file of
`core-data` is replaced by an empty one. -/
theorem processGlobalConfigOptions_writes_witness :
    ((processGlobalConfigOptions demoExternals ["core-data", "core-command"]
      (demoWorld demoExampleStore)).2 = .ok () ∧
    (processGlobalConfigOptions demoExternals ["core-data", "core-command"]
      (demoWorld demoExampleStore)).1.store = (demoWorld demoExampleStore).store ∧
    (processGlobalConfigOptions demoExternals ["core-data", "core-command"]
      (demoWorld demoExampleStore)).1.trace =
      (demoWorld demoExampleStore).trace ++ Event.getDocument "config" ::
        ["core-data", "core-command"].map (fun s => Event.writeEnvFile s false) ∧
    (∀ s ∈ ["core-data", "core-command"],
      (processGlobalConfigOptions demoExternals ["core-data", "core-command"]
        (demoWorld demoExampleStore)).1.files s =
      (setEnvVariables (getEnvVarFile s) [("SERVICE_PORT", "8080")]).vars) ∧
    (∀ s, s ∉ ["core-data", "core-command"] →
      (processGlobalConfigOptions demoExternals ["core-data", "core-command"]
        (demoWorld demoExampleStore)).1.files s = (demoWorld demoExampleStore).files s) ∧
    (demoConfigOptions.Config = none →
      ∀ s ∈ ["core-data", "core-command"],
        (processGlobalConfigOptions demoExternals ["core-data", "core-command"]
          (demoWorld demoExampleStore)).1.files s = [])) ∧
    demoStaleWorld.files "core-data" = [("SERVICE_PORT", "1234")] ∧
    (processGlobalConfigOptions demoExternals ["core-data"] demoStaleWorld).1.files "core-data"
      = [] :=
  ⟨processGlobalConfigOptions_writes demoExternals ["core-data", "core-command"]
      (demoWorld demoExampleStore) (demoGetDocument "config" demoExampleStore)
      demoConfigOptions [("SERVICE_PORT", "8080")] rfl (by rfl) (by rfl),
    rfl,
    (processGlobalConfigOptions_writes demoExternals ["core-data"] demoStaleWorld
      (demoGetDocument "config" demoStaleWorld.store) { Apps := [], Config := none } []
      rfl (by rfl) (by rfl)).2.2.2.2.2 rfl "core-data" (List.mem_cons_self _ _)⟩

/-! ### Legacy migration -/

theorem independentKeys_symm (a b : String) (h : independentKeys a b = true) :
    independentKeys b a = true := by
  simp only [independentKeys, Bool.and_eq_true] at h ⊢
  exact ⟨h.2, h.1⟩

/-- The migration loop over a table `ms` whose keys are independent of one
another, on a store that obeys `StoreLaws` and whose calls succeed. -/
theorem migrateLegacyInternalOptions_spec (X : Externals σ) (hlaws : StoreLaws X)
    (hget : ∀ key s, ∃ v, X.get key s = .ok v)
    (hset : ∀ key value s, ∃ s1, X.set key value s = .ok s1)
    (hunset : ∀ key s, ∃ s1, X.unset key s = .ok s1)
    (ms : List (String × String))
    (hself : ∀ kc ∈ ms, independentKeys kc.1 kc.2 = true)
    (hpair : ms.Pairwise independentEntries) (w : World σ) :
    (migrateLegacyInternalOptions X ms w).2 = .ok () ∧
    (∀ key, (∀ kc ∈ ms, independentKeys kc.1 key = true ∧ independentKeys kc.2 key = true) →
      X.get key (migrateLegacyInternalOptions X ms w).1.store = X.get key w.store) ∧
    (∀ e ∈ w.trace, e ∈ (migrateLegacyInternalOptions X ms w).1.trace) ∧
    (∀ kc ∈ ms, ∀ v, X.get kc.1 w.store = .ok v →
      (v ≠ "" →
        X.get kc.1 (migrateLegacyInternalOptions X ms w).1.store = .ok "" ∧
        X.get kc.2 (migrateLegacyInternalOptions X ms w).1.store = .ok v ∧
        Event.unset kc.1 ∈ (migrateLegacyInternalOptions X ms w).1.trace ∧
        Event.set kc.2 v ∈ (migrateLegacyInternalOptions X ms w).1.trace) ∧
      (v = "" →
        X.get kc.2 (migrateLegacyInternalOptions X ms w).1.store = X.get kc.2 w.store)) := by
  induction ms generalizing w with
  | nil =>
    refine ⟨rfl, fun _ _ => rfl, fun _ h => h, ?_⟩
    intro kc hkc
    simp at hkc
  | cons e rest ih =>
    obtain ⟨k, c⟩ := e
    have hkc : independentKeys k c = true := hself (k, c) (List.mem_cons_self _ _)
    have hselfRest : ∀ kc ∈ rest, independentKeys kc.1 kc.2 = true :=
      fun kc h => hself kc (List.mem_cons_of_mem _ h)
    have hpairRest : rest.Pairwise independentEntries := (List.pairwise_cons.mp hpair).2
    have hhead : ∀ kc ∈ rest, independentEntries (k, c) kc := (List.pairwise_cons.mp hpair).1
    obtain ⟨setting, hsetting⟩ := hget k w.store
    by_cases hempty : setting = ""
    · -- nothing to migrate for this entry
      have hstep : migrateLegacyInternalOptions X ((k, c) :: rest) w =
          migrateLegacyInternalOptions X rest (w.log (Event.get k)) := by
        simp [migrateLegacyInternalOptions, snapctlGet, hsetting, hempty]
      rw [hstep]
      obtain ⟨hok, hframe, hmono, hmoved⟩ := ih hselfRest hpairRest (w.log (Event.get k))
      refine ⟨hok, ?_, ?_, ?_⟩
      · intro key hkey
        exact hframe key (fun kc h => hkey kc (List.mem_cons_of_mem _ h))
      · intro e he
        exact hmono e (by simp [World.log, he])
      · intro kc hmem v hv
        rcases List.mem_cons.mp hmem with heq | hmem
        · subst heq
          have hvs : v = setting := by
            rw [hsetting] at hv
            injection hv with hv
            exact hv.symm
          refine ⟨fun hne => absurd (hvs.trans hempty) hne, fun _ => ?_⟩
          exact hframe c (fun kc h =>
            ⟨independentKeys_symm _ _ (hhead kc h).2.2.1,
              independentKeys_symm _ _ (hhead kc h).2.2.2⟩)
        · exact hmoved kc hmem v hv
    · -- the entry is unset and its value set under the canonical key
      obtain ⟨s2, hs2⟩ := hunset k w.store
      obtain ⟨s3, hs3⟩ := hset c setting s2
      have hstep : migrateLegacyInternalOptions X ((k, c) :: rest) w =
          migrateLegacyInternalOptions X rest
            { ((w.log (Event.get k)).log (Event.unset k)).log (Event.set c setting) with
              store := s3 } := by
        simp [migrateLegacyInternalOptions, snapctlGet, snapctlUnset, snapctlSet, hsetting,
          hempty, World.log, hs2, hs3]
      rw [hstep]
      obtain ⟨hok, hframe, hmono, hmoved⟩ := ih hselfRest hpairRest
        { ((w.log (Event.get k)).log (Event.unset k)).log (Event.set c setting) with
          store := s3 }
      have hfirst : ∀ key, independentKeys k key = true → independentKeys c key = true →
          X.get key s3 = X.get key w.store := by
        intro key h1 h2
        rw [hlaws.get_set_other c setting s2 s3 hs3 key h2,
          hlaws.get_unset_other k w.store s2 hs2 key h1]
      have hk3 : X.get k s3 = .ok "" := by
        rw [hlaws.get_set_other c setting s2 s3 hs3 k (independentKeys_symm _ _ hkc)]
        exact hlaws.get_unset k w.store s2 hs2 k (by simp [underKey])
      have hc3 : X.get c s3 = .ok setting := hlaws.get_set c setting s2 s3 hs3
      refine ⟨hok, ?_, ?_, ?_⟩
      · intro key hkey
        rw [hframe key (fun kc h => hkey kc (List.mem_cons_of_mem _ h))]
        exact hfirst key (hkey (k, c) (List.mem_cons_self _ _)).1
          (hkey (k, c) (List.mem_cons_self _ _)).2
      · intro e he
        exact hmono e (by simp [World.log, he])
      · intro kc hmem v hv
        rcases List.mem_cons.mp hmem with heq | hmem
        · subst heq
          have hvs : v = setting := by
            rw [hsetting] at hv
            injection hv with hv
            exact hv.symm
          subst hvs
          refine ⟨fun _ => ⟨?_, ?_, ?_, ?_⟩, fun h0 => absurd h0 hempty⟩
          · rw [hframe k (fun kc h =>
              ⟨independentKeys_symm _ _ (hhead kc h).1,
                independentKeys_symm _ _ (hhead kc h).2.1⟩)]
            exact hk3
          · rw [hframe c (fun kc h =>
              ⟨independentKeys_symm _ _ (hhead kc h).2.2.1,
                independentKeys_symm _ _ (hhead kc h).2.2.2⟩)]
            exact hc3
          · exact hmono _ (by simp [World.log])
          · exact hmono _ (by simp [World.log])
        · have h1 : X.get kc.1 s3 = X.get kc.1 w.store :=
            hfirst kc.1 (hhead kc hmem).1 (hhead kc hmem).2.2.1
          have h2 : X.get kc.2 s3 = X.get kc.2 w.store :=
            hfirst kc.2 (hhead kc hmem).2.1 (hhead kc hmem).2.2.2
          have := hmoved kc hmem v (h1.trans hv)
          exact ⟨this.1, fun h0 => (this.2 h0).trans h2⟩

theorem independentEntries_symm {a b : String × String} (h : independentEntries a b) :
    independentEntries b a :=
  ⟨independentKeys_symm _ _ h.1, independentKeys_symm _ _ h.2.2.1,
    independentKeys_symm _ _ h.2.1, independentKeys_symm _ _ h.2.2.2⟩

theorem namespaceMap_self : ∀ kc ∈ namespaceMap, independentKeys kc.1 kc.2 = true := by
  decide

theorem namespaceMap_pairwise : namespaceMap.Pairwise independentEntries := by
  simp only [namespaceMap, List.pairwise_cons, List.mem_cons, List.mem_singleton,
    forall_eq_or_imp, forall_eq, List.not_mem_nil, false_implies, implies_true,
    List.Pairwise.nil, and_true, independentEntries]
  decide

theorem namespaceMap_under_env : ∀ kc ∈ namespaceMap,
    underKey "env" kc.1 = true ∧ independentKeys "env" kc.2 = true := by
  decide

/-- The store a run with config enabled ends with: the store the migration
leaves, with `env` unset. -/
theorem ProcessAppConfig_enabled_store (X : Externals σ) (order : List (String × String))
    (services : List String) (w wm : World σ) (s3 : σ)
    (hservices : services ≠ [])
    (henabled : X.get "config-enabled" w.store = .ok "true")
    (hm : migrateLegacyInternalOptions X order (w.log (Event.get "config-enabled"))
      = (wm, .ok ()))
    (hu : X.unset "env" wm.store = .ok s3) :
    (ProcessAppConfig X order services w).1.store = s3 := by
  have hlen : ¬ services.length = 0 := by simpa using hservices
  simp only [ProcessAppConfig, hlen, if_false, snapctlGet, henabled, not_true_eq_false, hm,
    snapctlUnset, hu]
  have hg := processGlobalConfigOptions_store X services
    { wm.log (Event.unset "env") with store := s3 }
  rcases h4 : processGlobalConfigOptions X services
    { wm.log (Event.unset "env") with store := s3 } with ⟨w4, err | u⟩
  · rw [h4] at hg
    exact hg
  · rw [h4] at hg
    simp only
    rw [processAppConfigOptions_store]
    exact hg

/-- C4: on a store that obeys `StoreLaws`, holds `config-enabled` = "true"
and whose get, set and unset calls succeed, in whatever order the migration
loop visits `namespaceMap`, the migration returns success and, for each of
the three legacy keys: if it read as a non-empty value `v`, the migration
has called unset on it and set on its canonical key with `v`, and after the
migration, and also after the whole `ProcessAppConfig` run, the legacy key
reads as empty (unset) and its canonical key reads as `v`; if it read as
empty, the canonical key reads as it did before. -/
theorem migrateLegacyInternalOptions_moves_keys (X : Externals σ) (hlaws : StoreLaws X)
    (order : List (String × String)) (hperm : order.Perm namespaceMap)
    (services : List String) (w : World σ)
    (hservices : services ≠ [])
    (henabled : X.get "config-enabled" w.store = .ok "true")
    (hget : ∀ key s, ∃ v, X.get key s = .ok v)
    (hset : ∀ key value s, ∃ s1, X.set key value s = .ok s1)
    (hunset : ∀ key s, ∃ s1, X.unset key s = .ok s1) :
    (migrateLegacyInternalOptions X order w).2 = .ok () ∧
    ∀ legacy canonical v, (legacy, canonical) ∈ namespaceMap →
      X.get legacy w.store = .ok v →
      (v ≠ "" →
        Event.unset legacy ∈ (migrateLegacyInternalOptions X order w).1.trace ∧
        Event.set canonical v ∈ (migrateLegacyInternalOptions X order w).1.trace ∧
        X.get legacy (migrateLegacyInternalOptions X order w).1.store = .ok "" ∧
        X.get canonical (migrateLegacyInternalOptions X order w).1.store = .ok v ∧
        X.get legacy (ProcessAppConfig X order services w).1.store = .ok "" ∧
        X.get canonical (ProcessAppConfig X order services w).1.store = .ok v) ∧
      (v = "" →
        X.get canonical (migrateLegacyInternalOptions X order w).1.store
          = X.get canonical w.store ∧
        X.get canonical (ProcessAppConfig X order services w).1.store
          = X.get canonical w.store) := by
  have hself : ∀ kc ∈ order, independentKeys kc.1 kc.2 = true :=
    fun kc h => namespaceMap_self kc (hperm.mem_iff.mp h)
  have hpair : order.Pairwise independentEntries :=
    (List.Perm.pairwise_iff (fun h => independentEntries_symm h) hperm).mpr
      namespaceMap_pairwise
  obtain ⟨hok, _, _, hmoved⟩ :=
    migrateLegacyInternalOptions_spec X hlaws hget hset hunset order hself hpair w
  obtain ⟨hok1, _, _, hmoved1⟩ :=
    migrateLegacyInternalOptions_spec X hlaws hget hset hunset order hself hpair
      (w.log (Event.get "config-enabled"))
  refine ⟨hok, ?_⟩
  intro legacy canonical v hmem hv
  have hmemOrder : (legacy, canonical) ∈ order := hperm.mem_iff.mpr hmem
  obtain ⟨henv, hcanon⟩ := namespaceMap_under_env (legacy, canonical) hmem
  -- the store the whole run ends with
  rcases hm : migrateLegacyInternalOptions X order (w.log (Event.get "config-enabled"))
    with ⟨wm, err | u⟩
  · rw [hm] at hok1
    simp at hok1
  obtain ⟨s3, hs3⟩ := hunset "env" wm.store
  have hfinal := ProcessAppConfig_enabled_store X order services w wm s3 hservices henabled
    hm hs3
  rw [hfinal]
  rw [hm] at hmoved1
  have hA := hmoved (legacy, canonical) hmemOrder v hv
  have hB := hmoved1 (legacy, canonical) hmemOrder v hv
  have hlegacy3 : X.get legacy s3 = .ok "" := hlaws.get_unset "env" wm.store s3 hs3 legacy henv
  have hcanon3 : X.get canonical s3 = X.get canonical wm.store :=
    hlaws.get_unset_other "env" wm.store s3 hs3 canonical hcanon
  constructor
  · intro hne
    exact ⟨(hA.1 hne).2.2.1, (hA.1 hne).2.2.2, (hA.1 hne).1, (hA.1 hne).2.1, hlegacy3,
      hcanon3.trans (hB.1 hne).2.1⟩
  · intro h0
    exact ⟨hA.2 h0, hcanon3.trans (hB.2 h0)⟩

theorem lookup_filter_key (p : String → Bool) (s : List (String × String)) (key : String) :
    (s.filter (fun kv => p kv.1)).lookup key = if p key = true then s.lookup key else none := by
  induction s with
  | nil => simp [List.lookup]
  | cons e rest ih =>
    obtain ⟨a, b⟩ := e
    by_cases hka : key = a
    · subst hka
      by_cases hp : p key = true
      · simp [List.filter_cons, hp, List.lookup]
      · simp [List.filter_cons, hp, ih]
    · have h2 : (key == a) = false := by simpa using hka
      by_cases hp : p a = true
      · simp [List.filter_cons, hp, List.lookup, h2, ih]
      · simp [List.filter_cons, hp, List.lookup, h2, ih]

/-- The demo store obeys `StoreLaws`. -/
theorem demoExternals_laws : StoreLaws demoExternals where
  get_unset := by
    intro root s s1 h key hkey
    simp only [demoExternals, Except.ok.injEq] at h
    subst h
    simp [demoExternals, demoGet, demoUnset, lookup_filter_key (fun k => !underKey root k), hkey]
  get_unset_other := by
    intro root s s1 h key hkey
    simp only [demoExternals, Except.ok.injEq] at h
    subst h
    simp only [independentKeys, Bool.and_eq_true, Bool.not_eq_true'] at hkey
    simp [demoExternals, demoGet, demoUnset, lookup_filter_key (fun k => !underKey root k),
      hkey.1]
  get_set := by
    intro key value s s1 h
    simp only [demoExternals, Except.ok.injEq] at h
    subst h
    simp [demoExternals, demoGet, demoSet, List.lookup]
  get_set_other := by
    intro key value s s1 h other hother
    simp only [demoExternals, Except.ok.injEq] at h
    subst h
    simp only [independentKeys, Bool.and_eq_true, Bool.not_eq_true'] at hother
    have hne : (other == key) = false := by
      have := hother.1
      simp only [underKey, Bool.or_eq_false_iff] at this
      exact this.1
    simp [demoExternals, demoGet, demoSet, demoUnset, List.lookup, hne,
      lookup_filter_key (fun k => !underKey key k), hother.1]

/-- Witness of C4, the spec's migration example: the legacy key
`env.security-secret-store.add-secretstore-tokens` holds "tok-a,tok-b". -/
theorem migrateLegacyInternalOptions_moves_keys_witness :
    (migrateLegacyInternalOptions demoExternals namespaceMap (demoWorld demoLegacyStore)).2
      = .ok () ∧
    Event.unset "env.security-secret-store.add-secretstore-tokens" ∈
      (migrateLegacyInternalOptions demoExternals namespaceMap
        (demoWorld demoLegacyStore)).1.trace ∧
    Event.set "apps.security-secretstore-setup.config.add-secretstore-tokens" "tok-a,tok-b" ∈
      (migrateLegacyInternalOptions demoExternals namespaceMap
        (demoWorld demoLegacyStore)).1.trace ∧
    demoExternals.get "env.security-secret-store.add-secretstore-tokens"
      (migrateLegacyInternalOptions demoExternals namespaceMap
        (demoWorld demoLegacyStore)).1.store = .ok "" ∧
    demoExternals.get "apps.security-secretstore-setup.config.add-secretstore-tokens"
      (migrateLegacyInternalOptions demoExternals namespaceMap
        (demoWorld demoLegacyStore)).1.store = .ok "tok-a,tok-b" ∧
    demoExternals.get "env.security-secret-store.add-secretstore-tokens"
      (ProcessAppConfig demoExternals namespaceMap ["security-secret-store"]
        (demoWorld demoLegacyStore)).1.store = .ok "" ∧
    demoExternals.get "apps.security-secretstore-setup.config.add-secretstore-tokens"
      (ProcessAppConfig demoExternals namespaceMap ["security-secret-store"]
        (demoWorld demoLegacyStore)).1.store = .ok "tok-a,tok-b" :=
  ⟨(migrateLegacyInternalOptions_moves_keys demoExternals demoExternals_laws namespaceMap
      (List.Perm.refl _) ["security-secret-store"] (demoWorld demoLegacyStore) (by decide) rfl
      (fun key s => ⟨demoGet key s, rfl⟩) (fun key value s => ⟨demoSet key value s, rfl⟩)
      (fun key s => ⟨demoUnset key s, rfl⟩)).1,
    ((migrateLegacyInternalOptions_moves_keys demoExternals demoExternals_laws namespaceMap
      (List.Perm.refl _) ["security-secret-store"] (demoWorld demoLegacyStore) (by decide) rfl
      (fun key s => ⟨demoGet key s, rfl⟩) (fun key value s => ⟨demoSet key value s, rfl⟩)
      (fun key s => ⟨demoUnset key s, rfl⟩)).2
      "env.security-secret-store.add-secretstore-tokens"
      "apps.security-secretstore-setup.config.add-secretstore-tokens" "tok-a,tok-b"
      (List.mem_cons_self _ _) rfl).1 (by decide)⟩

/-! ### Custom options in `ProcessAppConfig` -/

theorem migrateLegacyInternalOptions_withHandler (X : Externals σ)
    (handler : String → Option configOptions → World σ → World σ × Except String Unit)
    (order : List (String × String)) (w : World σ) :
    migrateLegacyInternalOptions (withHandler X handler) order w =
      migrateLegacyInternalOptions X order w := by
  induction order generalizing w with
  | nil => rfl
  | cons kv rest ih =>
    obtain ⟨k, v⟩ := kv
    simp only [migrateLegacyInternalOptions, ih]
    rfl

/-- When every store call succeeds the migration loop returns success. -/
theorem migrateLegacyInternalOptions_ok (X : Externals σ)
    (hget : ∀ key s, ∃ v, X.get key s = .ok v)
    (hset : ∀ key value s, ∃ s1, X.set key value s = .ok s1)
    (hunset : ∀ key s, ∃ s1, X.unset key s = .ok s1)
    (order : List (String × String)) (w : World σ) :
    (migrateLegacyInternalOptions X order w).2 = .ok () := by
  induction order generalizing w with
  | nil => rfl
  | cons kv rest ih =>
    obtain ⟨k, c⟩ := kv
    obtain ⟨setting, hsetting⟩ := hget k w.store
    by_cases hempty : setting = ""
    · simp only [migrateLegacyInternalOptions, snapctlGet, hsetting, hempty, ne_eq,
        not_true_eq_false, if_false]
      exact ih _
    · obtain ⟨s2, hs2⟩ := hunset k w.store
      obtain ⟨s3, hs3⟩ := hset c setting s2
      simp only [migrateLegacyInternalOptions, snapctlGet, snapctlUnset, snapctlSet, hsetting,
        hempty, ne_eq, not_false_eq_true, if_true, World.log, hs2, hs3]
      exact ih _

/-- The loop over an entry returns success when each of its `config` trees
flattens. -/
theorem appConfigLoop_ok (service : String) (entries : GoMap (Option configOptions))
    (hflat : ∀ config, ("config", some config) ∈ entries → ∃ A, getConfigMap config = .ok A)
    (w : World σ) : (appConfigLoop service entries w).2 = .ok () := by
  induction entries generalizing w with
  | nil => rfl
  | cons kv rest ih =>
    obtain ⟨k, v⟩ := kv
    have hrest : ∀ config, ("config", some config) ∈ rest → ∃ A, getConfigMap config = .ok A :=
      fun config h => hflat config (List.mem_cons_of_mem _ h)
    by_cases hk : k = "config"
    · subst hk
      rcases v with _ | config
      · simpa [appConfigLoop] using ih hrest w
      · obtain ⟨A, hA⟩ := hflat config (List.mem_cons_self _ _)
        simp only [appConfigLoop, hA, if_true]
        exact ih hrest _
    · simpa [appConfigLoop, hk] using ih hrest w

/-- The loop over the services returns success when every `config` tree of a
listed service flattens. -/
theorem appServicesLoop_ok (options : snapOptions) (services : List String)
    (hflat : ∀ s ∈ services, ∀ config, ("config", some config) ∈ appEntry options s →
      ∃ A, getConfigMap config = .ok A)
    (w : World σ) : (appServicesLoop options.Apps services w).2 = .ok () := by
  induction services generalizing w with
  | nil => rfl
  | cons t rest ih =>
    have hrest : ∀ s ∈ rest, ∀ config, ("config", some config) ∈ appEntry options s →
        ∃ A, getConfigMap config = .ok A :=
      fun s hs => hflat s (List.mem_cons_of_mem _ hs)
    simp only [appServicesLoop]
    rcases hl : options.Apps.lookup t with _ | _ | entries
    · exact ih hrest w
    · exact ih hrest w
    · simp only
      have hentry := appEntry_eq options t entries hl
      have hok := appConfigLoop_ok t entries
        (fun config h => hflat t (List.mem_cons_self _ _) config (hentry ▸ h)) w
      rcases h2 : appConfigLoop t entries w with ⟨w1, err | u⟩
      · rw [h2] at hok
        simp at hok
      · exact ih hrest w1

/-- C6 (as amended): take a `ProcessAppConfig` run with config enabled on a
non-empty service list, in which the store calls succeed, the `config` and
`apps` documents (as the store holds them when the passes read them, which is
the store the run ends with) are read and parse, and the global tree and
every `config` tree of a listed service flatten. Then (1) the run returns
success, whatever keys other than `config` the parsed `apps` entries hold;
(2) the run never consults a custom-option handler: with any other handler
registered it is the same run; (3) once the `apps` document is read and
parsed, the app-specific pass is the loop over the parsed document with the
keys other than `config` removed from each entry, whatever handler is
registered. -/
theorem ProcessAppConfig_skips_custom_options (X : Externals σ)
    (order : List (String × String)) (services : List String) (w : World σ)
    (gText aText : String) (gOptions aOptions : snapOptions) (G : GoMap String)
    (hservices : services ≠ [])
    (henabled : X.get "config-enabled" w.store = .ok "true")
    (hget : ∀ key s, ∃ v, X.get key s = .ok v)
    (hset : ∀ key value s, ∃ s1, X.set key value s = .ok s1)
    (hunset : ∀ key s, ∃ s1, X.unset key s = .ok s1)
    (hgRead : X.getDocument "config" (ProcessAppConfig X order services w).1.store = .ok gText)
    (hgParse : X.unmarshal gText = .ok gOptions)
    (hG : getConfigMap (gOptions.Config.getD []) = .ok G)
    (haRead : X.getDocument "apps" (ProcessAppConfig X order services w).1.store = .ok aText)
    (haParse : X.unmarshal aText = .ok aOptions)
    (hflat : ∀ s ∈ services, ∀ config, ("config", some config) ∈ appEntry aOptions s →
      ∃ A, getConfigMap config = .ok A) :
    (ProcessAppConfig X order services w).2 = .ok () ∧
    (∀ handler, ProcessAppConfig (withHandler X handler) order services w =
      ProcessAppConfig X order services w) ∧
    (∀ handler (w0 : World σ), X.getDocument "apps" w0.store = .ok aText →
      processAppConfigOptions (withHandler X handler) services w0 =
        appServicesLoop (withoutCustomOptions aOptions).Apps services
          (w0.log (Event.getDocument "apps"))) := by
  refine ⟨?_, ?_, ?_⟩
  · have hmok := migrateLegacyInternalOptions_ok X hget hset hunset order
      (w.log (Event.get "config-enabled"))
    rcases hm : migrateLegacyInternalOptions X order (w.log (Event.get "config-enabled"))
      with ⟨wm, err | u⟩
    · rw [hm] at hmok
      simp at hmok
    obtain ⟨s3, hs3⟩ := hunset "env" wm.store
    have hfinal := ProcessAppConfig_enabled_store X order services w wm s3 hservices henabled
      hm hs3
    rw [hfinal] at hgRead haRead
    have hlen : ¬ services.length = 0 := by simpa using hservices
    have hglobal := processGlobalConfigOptions_eq X services
      { wm.log (Event.unset "env") with store := s3 } gText gOptions G hgRead hgParse hG
    have happ := processAppConfigOptions_eq X services
      (services.foldl (writeGlobal G)
        (({ wm.log (Event.unset "env") with store := s3 } : World σ).log
          (Event.getDocument "config")))
      aText aOptions (by rw [foldl_writeGlobal_store]; exact haRead) haParse
    simp only [ProcessAppConfig, hlen, if_false, snapctlGet, henabled, not_true_eq_false, hm,
      snapctlUnset, hs3, hglobal, happ]
    exact appServicesLoop_ok aOptions services hflat _
  · intro handler
    simp only [ProcessAppConfig, migrateLegacyInternalOptions_withHandler]
    rfl
  · intro handler w0 hread
    rw [processAppConfigOptions_eq (withHandler X handler) services w0 aText aOptions hread
      haParse, appServicesLoop_withoutCustomOptions]

/-- Witness of C6 (as amended): config enabled, `core-data` with a `config`
tree and the custom key `custom`. -/
theorem ProcessAppConfig_skips_custom_options_witness :
    (ProcessAppConfig demoExternals namespaceMap ["core-data"]
      (demoWorld [("config-enabled", "true"), ("apps", demoAppsCustomText)])).2 = .ok () ∧
    (∀ handler, ProcessAppConfig (withHandler demoExternals handler) namespaceMap ["core-data"]
        (demoWorld [("config-enabled", "true"), ("apps", demoAppsCustomText)]) =
      ProcessAppConfig demoExternals namespaceMap ["core-data"]
        (demoWorld [("config-enabled", "true"), ("apps", demoAppsCustomText)])) ∧
    (∀ handler (w0 : World DemoStore),
      demoExternals.getDocument "apps" w0.store
        = .ok (demoGetDocument "apps" [("config-enabled", "true"), ("apps", demoAppsCustomText)]) →
      processAppConfigOptions (withHandler demoExternals handler) ["core-data"] w0 =
        appServicesLoop (withoutCustomOptions demoAppsCustomOptions).Apps ["core-data"]
          (w0.log (Event.getDocument "apps"))) :=
  ProcessAppConfig_skips_custom_options demoExternals namespaceMap ["core-data"]
    (demoWorld [("config-enabled", "true"), ("apps", demoAppsCustomText)])
    (demoGetDocument "config" [("config-enabled", "true"), ("apps", demoAppsCustomText)])
    (demoGetDocument "apps" [("config-enabled", "true"), ("apps", demoAppsCustomText)])
    { Apps := [], Config := none } demoAppsCustomOptions []
    (by decide) rfl
    (fun key s => ⟨demoGet key s, rfl⟩) (fun key value s => ⟨demoSet key value s, rfl⟩)
    (fun key s => ⟨demoUnset key s, rfl⟩)
    (by rfl) (by rfl) (by rfl) (by rfl) (by rfl)
    (fun s hs config hmem => by
      have hs1 : s = "core-data" := by simpa using hs
      subst hs1
      have hc : config = [("service", .obj [("port", .str "9999")])] := by
        have hmem2 : ("config", some config) ∈
            [("config", some [("service", Value.obj [("port", Value.str "9999")])]),
              ("custom", some [("flag", Value.str "on")])] := hmem
        simp only [List.mem_cons, Prod.mk.injEq, Option.some.injEq, List.mem_singleton,
          List.not_mem_nil, or_false] at hmem2
        rcases hmem2 with ⟨_, h⟩ | ⟨h, _⟩
        · exact h
        · exact absurd h (by decide)
      subst hc
      exact ⟨[("SERVICE_PORT", "9999")], by rfl⟩)

end EdgexSnapHooks
